import Mathlib

/-!
Shallow embedding of `src/V1 Source/RBM_CUDA.CPP` — the functions
`rbm_cuda_wt_init` (lines 44-291) and `rbm_cuda` (lines 302-856) — together
with theorems settling the specification claims about them.

Modelling conventions:

* C `double` values are modelled as rational numbers (`ℚ`): every machine
  double is a rational, every constant appearing in the source (`1.2`,
  `0.001`, `1e-8`, `1e40`, ...) is an exact rational, and all host-side
  control flow compares such values.  The math-library calls `sqrt` and
  `log` are modelled as black-box function fields of the environment
  record, exactly as the CUDA engine primitives are; no claim depends on
  their values.
* The CUDA numerical engine (out of scope per spec section 6) is an oracle:
  the outputs and status of the primitive called at epoch `e`, batch `b`
  (or at trial `irand`, batch `b` in the initializer) are environment
  functions of those indices.  Device-only plumbing (buffer sizing, data
  upload, timers, logging) has no host-visible effect and is absorbed by
  the oracle.
* C `int` is modelled as `ℤ` where values can go negative (the random
  stream, indices of the shuffle array) and as `ℕ` for counts and loop
  indices.  The cast `(int)` on a rational is truncation toward zero.
* Uninitialized C locals are modelled as explicit initial-garbage
  environment fields; the variable `k` of `rbm_cuda` is tracked as
  `Option ℤ` (`none` = never assigned) since one claim is about exactly
  that.
-/

namespace RBMCuda

/-- Constant `IA = 16807` of the Park–Miller generator (RBM_CUDA.CPP line 27). -/
def IA : ℤ := 16807

/-- Constant `IM = 2147483647` (line 28), the Mersenne-prime modulus. -/
def IM : ℤ := 2147483647

/-- Constant `IQ = 127773` (line 30) of the Schrage factorization. -/
def IQ : ℤ := 127773

/-- Constant `IR = 2836` (line 31) of the Schrage factorization. -/
def IR : ℤ := 2836

/-- Quotient taken before each stream advance: C statement `k = randnum / IQ`
(lines 481, 513, 528, 579).  Operands are positive, so C truncating division
agrees with mathematical integer division. -/
def ranQuot (x : ℤ) : ℤ := x / IQ

/-- One advance of the deterministic stream, exactly as coded at lines
481-484 (and 513-516, 528-531, 579-582):
`k = x/IQ; x = IA*(x - k*IQ) - IR*k; if (x < 0) x += IM`. -/
def ranNext (x : ℤ) : ℤ :=
  let k := x / IQ
  let r := IA * (x - k * IQ) - IR * k
  if r < 0 then r + IM else r

/-- The C cast `(int)` applied to a rational: truncation toward zero. -/
def truncI (x : ℚ) : ℤ := if 0 ≤ x then ⌊x⌋ else -⌊-x⌋

/-- Column mean before clamping: the accumulation loops of `rbm_cuda_wt_init`
(lines 87-97) and `rbm_cuda` (lines 348-357) sum `data[i*ncols + ivis]` over
the `nc` cases and divide by `nc`. -/
def dataMeanRaw (data : ℕ → ℚ) (nc ncols ivis : ℕ) : ℚ :=
  (∑ i ∈ Finset.range nc, data (i * ncols + ivis)) / (nc : ℚ)

/-- Sequential clamping of a mean (lines 98-101 and 358-361): first raise to
`1e-8` if below it, then lower to `1 - 1e-8` if above it. -/
def clampMean (x : ℚ) : ℚ :=
  let y := if x < 1e-8 then 1e-8 else x
  if y > 1 - 1e-8 then 1 - 1e-8 else y

/-- The clamped per-column data mean `data_mean[ivis]`, computed identically at
lines 87-102 (`rbm_cuda_wt_init`) and lines 348-362 (`rbm_cuda`). -/
def data_mean (data : ℕ → ℚ) (nc ncols ivis : ℕ) : ℚ :=
  clampMean (dataMeanRaw data nc ncols ivis)

/-! ## The training engine `rbm_cuda` (lines 302-856) -/

/-- Scalar arguments of `rbm_cuda` (lines 303-322).  The two `int` mode flags
are modelled as `Bool` (C tests them only for non-zero-ness). -/
structure RbmParams where
  nc : ℕ
  ncols : ℕ
  n_inputs : ℕ
  nhid : ℕ
  n_chain_start : ℤ
  n_chain_end : ℤ
  n_chain_rate : ℚ
  mean_field : Bool
  greedy_mean_field : Bool
  n_batches : ℕ
  max_epochs : ℕ
  max_no_imp : ℕ
  convergence_crit : ℚ
  learning_rate : ℚ
  start_momentum : ℚ
  end_momentum : ℚ
  weight_pen : ℚ
  sparsity_penalty : ℚ
  sparsity_target : ℚ

/-- Oracle environment for a `rbm_cuda` run: the fast uniform generator,
the black-box `sqrt`, the scalar outputs each engine primitive reports for
the call made at epoch `e` and batch `b` (all primitives succeed in this
model; the failure paths all return `-1.0` immediately and are exercised in
the initializer model below, which checks statuses), the escape-key signal
observed at each checkpoint, and initial-garbage values for the C locals
that are read before first assignment on some paths. -/
structure RbmEnv where
  urand : ℕ → ℚ
  sqrtF : ℚ → ℚ
  errVec : ℕ → ℕ → ℕ → ℚ
  maxIncW : ℕ → ℕ → ℚ
  maxWeight : ℕ → ℚ
  lenDotLen : ℕ → ℕ → ℚ
  lenDotDot : ℕ → ℕ → ℚ
  escMid : ℕ → ℕ → Bool
  escEnd : ℕ → Bool
  errVec0 : ℕ → ℚ
  lenPrev0 : ℚ
  smoothedThis0 : ℚ
  smoothedDot0 : ℚ
  smoothedRat0 : ℚ
  bestCrit0 : ℚ
  bestErr0 : ℚ
  retErr0 : ℚ

/-- Host-visible mutable locals of `rbm_cuda` (declared at lines 331-336).
`k` is `Option ℤ` so that "never assigned" is observable; `fetchKs` records
the value of `k` passed to each `cuda_fetch_vis1` call, and `lrTrace` the
learning rate at the end of each completed batch. -/
structure RbmState where
  randnum : ℤ
  k : Option ℤ
  shuffle_index : ℤ → ℤ
  tU : ℕ
  learning_rate : ℚ
  momentum : ℚ
  chain_length : ℚ
  len_prev : ℚ
  smoothed_this : ℚ
  smoothed_dot : ℚ
  smoothed_rat : ℚ
  err_vec : ℕ → ℚ
  escFlag : Bool
  n_no_improvement : ℕ
  best_crit : ℚ
  best_err : ℚ
  most_recent_correct_error : ℚ
  error : ℚ
  max_inc : ℚ
  fetchKs : List (Option ℤ)
  lrTrace : List ℚ

/-- Which exit ended the training loop. -/
inductive StopReason
  | maxEpochs
  | smallGrad
  | stalled
  | cancelled
  deriving DecidableEq

/-- Outcome of one epoch body: continue, or leave the loop via a `break`. -/
inductive EpochOut
  | cont (st : RbmState)
  | stop (r : StopReason) (st : RbmState)

/-- Whether an epoch outcome continues to the next epoch. -/
def EpochOut.isCont : EpochOut → Bool
  | .cont _ => true
  | .stop _ _ => false

/-- The state carried by an epoch outcome. -/
def EpochOut.state : EpochOut → RbmState
  | .cont st => st
  | .stop _ st => st

/-- Final state of a training run plus how and at which epoch it ended
(`stopEpoch = max_epochs` when the loop ran to completion). -/
structure RbmResult where
  state : RbmState
  reason : StopReason
  stopEpoch : ℕ

/-- Fisher–Yates shuffle of lines 443-451: `i` counts down from `nc`; each
iteration draws `j = (int)(unifrand_fast() * i)` (clamped to `i-1`), assigns
the swap temporary `k = shuffle_index[--i]` and swaps entries `i` and `j`.
Returns the permuted array, the last value assigned to `k`, and the advanced
fast-uniform counter. -/
def fisherYates (u : ℕ → ℚ) : ℕ → (ℤ → ℤ) → Option ℤ → ℕ → ((ℤ → ℤ) × Option ℤ × ℕ)
  | 0, sh, kv, t => (sh, kv, t)
  | 1, sh, kv, t => (sh, kv, t)
  | n+2, sh, _, t =>
    let j0 : ℤ := truncI (u t * ((n + 2 : ℕ) : ℚ))
    let j : ℤ := if ((n + 2 : ℕ) : ℤ) ≤ j0 then ((n + 1 : ℕ) : ℤ) else j0
    let kk : ℤ := sh ((n + 1 : ℕ) : ℤ)
    let sh' : ℤ → ℤ := fun m => if m = j then kk else if m = ((n + 1 : ℕ) : ℤ) then sh j else sh m
    fisherYates u (n+1) sh' (some kk) (t+1)

/-- One epoch's update of `chain_length` (line 744):
`chain_length = (1 - n_chain_rate) * chain_length + n_chain_rate * n_chain_end`. -/
def chainUpdate (p : RbmParams) (c : ℚ) : ℚ :=
  (1 - p.n_chain_rate) * c + p.n_chain_rate * (p.n_chain_end : ℚ)

/-- The sequence of `chain_length` values: start at `n_chain_start`
(line 432) and apply the line-744 update once per epoch. -/
def chainSeq (p : RbmParams) : ℕ → ℚ
  | 0 => (p.n_chain_start : ℚ)
  | n+1 => chainUpdate p (chainSeq p n)

/-- The Markov-chain loop of lines 510-563 (host-visible effects only): each
iteration advances the stream twice (for `cuda_sample_hidden2` and
`cuda_hid_to_vis`, both of which receive the advanced `randnum`), and on the
first iteration only (`ichain == 0`) `cuda_recon_error` overwrites `err_vec`.
Carries `(randnum, k, err_vec)`. -/
def chainLoop (env : RbmEnv) (e b : ℕ) :
    ℕ → Bool → ℤ → Option ℤ → (ℕ → ℚ) → (ℤ × Option ℤ × (ℕ → ℚ))
  | 0, _, r, kv, ev => (r, kv, ev)
  | n+1, first, r, _, ev =>
    let r1 := ranNext r
    let k2 := ranQuot r1
    let r2 := ranNext r1
    let ev' := if first then (fun iv => env.errVec e b iv) else ev
    chainLoop env e b n false r2 (some k2) ev'

/-- Lines 655-666: the four-way gradient-direction learning-rate multiplier
followed by the unconditional clamp into `[0.001, 1]`. -/
def adaptLr (lr dot : ℚ) : ℚ :=
  let lr1 := if dot > 0.5 then lr * 1.2
             else if dot > 0.3 then lr * 1.1
             else if dot < -0.5 then lr / 1.2
             else if dot < -0.3 then lr / 1.1
             else lr
  let lr2 := if lr1 > 1 then 1 else lr1
  if lr2 < 0.001 then 0.001 else lr2

/-- Body of the batch loop of `rbm_cuda` (lines 477-676) at epoch `e`, batch
`b`: the conditional fetch-seed stream advance (skipped when
`greedy_mean_field`, lines 480-485), the `cuda_fetch_vis1` call receiving `k`
(line 488, recorded in `fetchKs`), the Markov chain, the hidden-bias stream
advance (lines 579-582), error and max-increment accumulation (lines 610-622),
the mid-batch escape check (line 624, short-circuited away during epoch 0),
and the gradient-direction learning-rate adaptation (lines 632-673).
Returns the new state and whether the line-625 `break` fired. -/
def batchStep (env : RbmEnv) (p : RbmParams) (e b : ℕ) (st : RbmState) : RbmState × Bool :=
  let kr : Option ℤ × ℤ :=
    if p.greedy_mean_field then (st.k, st.randnum)
    else (some (ranQuot st.randnum), ranNext st.randnum)
  let k0 := kr.1
  let r0 := kr.2
  let fks := st.fetchKs ++ [k0]
  let cnt : ℕ := (truncI (st.chain_length + 0.5)).toNat
  let c := chainLoop env e b cnt true r0 k0 st.err_vec
  let r1 := c.1
  let ev1 := c.2.2
  let k2 : Option ℤ := some (ranQuot r1)
  let r2 : ℤ := ranNext r1
  let err' := st.error + ∑ iv ∈ Finset.range p.n_inputs, ev1 iv
  let dtemp := env.maxIncW e b
  let mi' := if dtemp > st.max_inc then dtemp else st.max_inc
  let esc' := st.escFlag || env.escMid e b
  let stA := { st with randnum := r2, k := k2, err_vec := ev1, error := err',
                       max_inc := mi', escFlag := esc', fetchKs := fks }
  if e ≠ 0 ∧ esc' = true then (stA, true)
  else
    let ld := env.lenDotLen e b
    let dd := env.lenDotDot e b
    if e = 0 ∧ b = 0 then
      ({ stA with len_prev := ld,
                  smoothed_this := env.sqrtF (ld / ((p.nhid : ℚ) * (p.n_inputs : ℚ))),
                  smoothed_dot := 0,
                  lrTrace := stA.lrTrace ++ [stA.learning_rate] }, false)
    else
      let dot := dd / env.sqrtF (ld * stA.len_prev)
      let lr3 := adaptLr stA.learning_rate dot
      let mom' := if |dot| > 0.3 then stA.momentum / 1.5 else stA.momentum
      ({ stA with len_prev := ld,
                  learning_rate := lr3,
                  momentum := mom',
                  smoothed_this := 0.99 * stA.smoothed_this +
                    0.01 * env.sqrtF (ld / ((p.nhid : ℚ) * (p.n_inputs : ℚ))),
                  smoothed_dot := 0.9 * stA.smoothed_dot + 0.1 * dot,
                  lrTrace := stA.lrTrace ++ [lr3] }, false)

/-- The batch loop of lines 473-678: iterate `batchStep` over the batches,
carrying `istart`/`n_done` (lines 474-475, 675-676), stopping early when the
mid-batch `break` fires. -/
def batchLoop (env : RbmEnv) (p : RbmParams) (e : ℕ) :
    ℕ → ℕ → ℕ → ℕ → RbmState → RbmState × Bool
  | 0, _, _, _, st => (st, false)
  | fuel+1, b, istart, n_done, st =>
    let n_in_batch := (p.nc - n_done) / (p.n_batches - b)
    let istop := istart + n_in_batch
    let r := batchStep env p e b st
    if r.2 then (r.1, true)
    else batchLoop env p e fuel (b+1) istop (n_done + n_in_batch) r.1

/-- Epoch preamble of lines 443-458: run the Fisher–Yates shuffle (which
reassigns the C variable `k`) and push the index array to the device. -/
def shufflePhase (env : RbmEnv) (p : RbmParams) (st : RbmState) : RbmState :=
  let f := fisherYates env.urand p.nc st.shuffle_index st.k st.tU
  { st with shuffle_index := f.1, k := f.2.1, tU := f.2.2 }

/-- One epoch's shuffle, accumulator reset (lines 468-471: `error = 0`,
`max_inc = 0`) and batch loop. -/
def epochBatchPhase (env : RbmEnv) (p : RbmParams) (e : ℕ) (st : RbmState) : RbmState × Bool :=
  let st1 := shufflePhase env p st
  let st2 := { st1 with error := 0, max_inc := 0 }
  batchLoop env p e p.n_batches 0 0 0 st2

/-- One stall-triggered learning-rate ceiling (each of the statements at
lines 755-768): if the stall counter exceeds `thr` and the rate exceeds
`cap`, lower the rate to `cap`. -/
def stallCap (nni thr : ℕ) (cap lr : ℚ) : ℚ :=
  if nni > thr then if lr > cap then cap else lr else lr

/-- Lines 743-768, reached only when no `break` fired this epoch: anneal
momentum (line 743) and chain length (line 744), update the display-only
smoothed criterion (lines 746-749) and apply the stall-triggered
learning-rate ceilings (lines 755-768). -/
def epochFinish (p : RbmParams) (e : ℕ) (mw : ℚ) (st : RbmState) : RbmState :=
  let st5 := { st with momentum := 0.99 * st.momentum + 0.01 * p.end_momentum,
                       chain_length := chainUpdate p st.chain_length }
  let sr := if e = 0 then st5.max_inc / mw else 0.9 * st5.smoothed_rat + 0.1 * st5.max_inc / mw
  let st6 := { st5 with smoothed_rat := sr }
  let lr1 := stallCap st6.n_no_improvement 50 0.03 st6.learning_rate
  let lr2 := stallCap st6.n_no_improvement 100 0.02 lr1
  let lr3 := stallCap st6.n_no_improvement 150 0.01 lr2
  let lr4 := stallCap st6.n_no_improvement 200 0.005 lr3
  let lr5 := stallCap st6.n_no_improvement 250 0.002 lr4
  { st6 with learning_rate := lr5 }

/-- One full epoch body (lines 435-770): batch phase, the epoch-boundary
escape check (line 693, guarded by `i_epoch` so epoch 0 never cancels), error
normalization and `most_recent_correct_error` update (lines 702-703),
`best_err` tracking (lines 705-706), the small-gradient convergence `break`
(lines 713-722), the stall bookkeeping and `break` (lines 731-740), and the
epoch tail `epochFinish`. -/
def epochStep (env : RbmEnv) (p : RbmParams) (e : ℕ) (st : RbmState) : EpochOut :=
  let bp := epochBatchPhase env p e st
  let st1 := bp.1
  let esc1 := st1.escFlag || env.escEnd e
  let st2 := { st1 with escFlag := esc1 }
  if e ≠ 0 ∧ esc1 = true then .stop .cancelled st2
  else
    let err := st2.error / ((p.nc : ℚ) * (p.n_inputs : ℚ))
    let be := if e = 0 ∨ err < st2.best_err then err else st2.best_err
    let st3 := { st2 with error := err, most_recent_correct_error := err, best_err := be }
    let mw := env.maxWeight e
    if st3.max_inc / mw < p.convergence_crit then .stop .smallGrad st3
    else
      if e = 0 ∨ st3.max_inc / mw < st3.best_crit then
        .cont (epochFinish p e mw
          { st3 with best_crit := st3.max_inc / mw, n_no_improvement := 0 })
      else
        let st4 := { st3 with n_no_improvement := st3.n_no_improvement + 1 }
        if st4.n_no_improvement > p.max_no_imp then .stop .stalled st4
        else .cont (epochFinish p e mw st4)

/-- The epoch loop of line 435, by remaining-epoch fuel. -/
def epochLoop (env : RbmEnv) (p : RbmParams) : ℕ → ℕ → RbmState → RbmResult
  | 0, e, st => ⟨st, .maxEpochs, e⟩
  | fuel+1, e, st =>
    match epochStep env p e st with
    | .cont st' => epochLoop env p fuel (e+1) st'
    | .stop r st' => ⟨st', r, e⟩

/-- State of `rbm_cuda` on entry to the training loop: `randnum = 1`
(line 339), identity shuffle index (lines 370-371), hyperparameters from the
arguments (lines 431-433), every never-yet-assigned local at its
initial-garbage environment value, `k` never assigned. -/
def initState (env : RbmEnv) (p : RbmParams) : RbmState where
  randnum := 1
  k := none
  shuffle_index := fun i => i
  tU := 0
  learning_rate := p.learning_rate
  momentum := p.start_momentum
  chain_length := (p.n_chain_start : ℚ)
  len_prev := env.lenPrev0
  smoothed_this := env.smoothedThis0
  smoothed_dot := env.smoothedDot0
  smoothed_rat := env.smoothedRat0
  err_vec := env.errVec0
  escFlag := false
  n_no_improvement := 0
  best_crit := env.bestCrit0
  best_err := env.bestErr0
  most_recent_correct_error := env.retErr0
  error := 0
  max_inc := 0
  fetchKs := []
  lrTrace := []

/-- A full training run of `rbm_cuda` under a non-failing engine. -/
def rbmRun (env : RbmEnv) (p : RbmParams) : RbmResult :=
  epochLoop env p p.max_epochs 0 (initState env p)

/-- The function `rbm_cuda` (lines 302-856) under a non-failing engine:
computes the clamped data means (lines 348-362, consumed by the device), runs
the training loop and returns `most_recent_correct_error` (line 855). -/
def rbm_cuda (env : RbmEnv) (p : RbmParams) (data : ℕ → ℚ) : ℚ :=
  let _dm : ℕ → ℚ := fun ivis => data_mean data p.nc p.ncols ivis
  (rbmRun env p).state.most_recent_correct_error

/-- Sum of the `err_vec` entries reported by `cuda_recon_error` for epoch
`e`, batch `b` (accumulated at lines 610-611). -/
def batchErrSum (env : RbmEnv) (p : RbmParams) (e b : ℕ) : ℚ :=
  ∑ iv ∈ Finset.range p.n_inputs, env.errVec e b iv

/-- Total un-normalized reconstruction error of a fully processed epoch. -/
def epochErrTotal (env : RbmEnv) (p : RbmParams) (e : ℕ) : ℚ :=
  ∑ b ∈ Finset.range p.n_batches, batchErrSum env p e b

/-- Normalized reconstruction error of a fully processed epoch (line 702). -/
def epochNormErr (env : RbmEnv) (p : RbmParams) (e : ℕ) : ℚ :=
  epochErrTotal env p e / ((p.nc : ℚ) * (p.n_inputs : ℚ))

/-- The value `max_inc` holds after a full epoch of line 613-622 updates. -/
def epochMaxInc (env : RbmEnv) (p : RbmParams) (e : ℕ) : ℚ :=
  (List.range p.n_batches).foldl
    (fun a b => if env.maxIncW e b > a then env.maxIncW e b else a) 0

/-- The epoch's convergence criterion `max_inc / max_weight`
(lines 721 and 731). -/
def epochCrit (env : RbmEnv) (p : RbmParams) (e : ℕ) : ℚ :=
  epochMaxInc env p e / env.maxWeight e

/-- No escape/cancellation signal arrives at any checkpoint of the run. -/
def NoEscape (env : RbmEnv) : Prop :=
  (∀ e b, env.escMid e b = false) ∧ ∀ e, env.escEnd e = false

/-- Invariant for the learning-rate claim: the current learning rate and
every recorded batch-boundary value lie in `[0.001, 1]`. -/
def LrOk (st : RbmState) : Prop :=
  (0.001 ≤ st.learning_rate ∧ st.learning_rate ≤ 1) ∧
  ∀ y ∈ st.lrTrace, 0.001 ≤ y ∧ y ≤ 1

/-- The value `randnum` holds at the end of batch `(e, b)`'s Markov chain —
the input of the hidden-bias stream advance of lines 579-582, whose quotient
is the last value left in `k` by the batch. -/
def preHidBiasRand (env : RbmEnv) (p : RbmParams) (e b : ℕ) (st : RbmState) : ℤ :=
  let kr : Option ℤ × ℤ :=
    if p.greedy_mean_field then (st.k, st.randnum)
    else (some (ranQuot st.randnum), ranNext st.randnum)
  (chainLoop env e b ((truncI (st.chain_length + 0.5)).toNat) true kr.2 kr.1 st.err_vec).1

/-! ## The weight initializer `rbm_cuda_wt_init` (lines 44-291) -/

/-- Scalar arguments of `rbm_cuda_wt_init` (lines 45-51). -/
structure WtParams where
  nc : ℕ
  ncols : ℕ
  n_inputs : ℕ
  nhid : ℕ
  n_rand : ℕ
  n_batches : ℕ

/-- Status of `rbm_cuda_init` (discriminated at lines 120-140). -/
inductive CudaInitStatus
  | ok
  | insufficientMemory
  | cudaMemory
  | cudaError
  deriving DecidableEq

/-- Oracle environment for a `rbm_cuda_wt_init` run: fast uniform stream,
black-box `sqrt`/`log`, per-call statuses of every engine primitive (`true`
means success, i.e. zero return), the per-call `err_vec` contents, the
escape check observed after each trial, and initial-garbage contents of the
caller-provided work buffers. -/
structure WtEnv where
  urand : ℕ → ℚ
  sqrtF : ℚ → ℚ
  logF : ℚ → ℚ
  initStatus : CudaInitStatus
  shuffleOk : Bool
  paramsOk : ℕ → Bool
  fetchOk : ℕ → ℕ → Bool
  visHidOk : ℕ → ℕ → Bool
  hidVisOk : ℕ → ℕ → Bool
  reconRet : ℕ → ℕ → ℤ
  errVec : ℕ → ℕ → ℕ → ℚ
  esc : ℕ → Bool
  errVec0 : ℕ → ℚ
  w0 : ℕ → ℚ
  inBias0 : ℕ → ℚ
  hidBias0 : ℕ → ℚ
  wBest0 : ℕ → ℚ
  inBiasBest0 : ℕ → ℚ
  hidBiasBest0 : ℕ → ℚ

/-- Host-visible mutable buffers and locals of `rbm_cuda_wt_init`. -/
structure WtState where
  best_err : ℚ
  w : ℕ → ℚ
  in_bias : ℕ → ℚ
  hid_bias : ℕ → ℚ
  w_best : ℕ → ℚ
  in_bias_best : ℕ → ℚ
  hid_bias_best : ℕ → ℚ
  err_vec : ℕ → ℚ

/-- Index into the fast-uniform stream at which trial `irand` starts drawing:
each earlier trial consumed one draw for `diff` (line 179) plus
`nhid * n_inputs` weight draws (line 185). -/
def trialBase (p : WtParams) (irand : ℕ) : ℕ := irand * (1 + p.nhid * p.n_inputs)

/-- The trial-wide scale `diff = 4 * unifrand_fast() / sqrt(sqrt(n_inputs*nhid))`
(line 179). -/
def trialDiff (env : WtEnv) (p : WtParams) (irand : ℕ) : ℚ :=
  4 * env.urand (trialBase p irand) /
    env.sqrtF (env.sqrtF ((p.n_inputs : ℚ) * (p.nhid : ℚ)))

/-- Trial `irand`'s weight for hidden unit `ihid`, visible unit `ivis`:
`wt = diff * (unifrand_fast() - 0.5)` (line 185), with the draws consumed in
row-major `(ihid, ivis)` order. -/
def trialWt (env : WtEnv) (p : WtParams) (irand ihid ivis : ℕ) : ℚ :=
  trialDiff env p irand *
    (env.urand (trialBase p irand + 1 + ihid * p.n_inputs + ivis) - 0.5)

/-- Trial `irand`'s hidden bias `-(sum over ivis of data_mean[ivis] * wt)`
(lines 182-190). -/
def trialHidBias (env : WtEnv) (p : WtParams) (dm : ℕ → ℚ) (irand ihid : ℕ) : ℚ :=
  -(∑ ivis ∈ Finset.range p.n_inputs, dm ivis * trialWt env p irand ihid ivis)

/-- Trial `irand`'s visible bias
`log(mean/(1-mean)) - 0.5 * (sum over ihid of w[ihid][ivis])` (lines 194-199). -/
def trialInBias (env : WtEnv) (p : WtParams) (dm : ℕ → ℚ) (irand ivis : ℕ) : ℚ :=
  env.logF (dm ivis / (1 - dm ivis)) -
    0.5 * (∑ ihid ∈ Finset.range p.nhid, trialWt env p irand ihid ivis)

/-- Generation of trial `irand`'s weight matrix and bias vectors
(lines 177-199): the loops overwrite exactly the first `nhid * n_inputs`
(respectively `nhid`, `n_inputs`) entries of the buffers. -/
def genTrialParams (env : WtEnv) (p : WtParams) (dm : ℕ → ℚ) (irand : ℕ)
    (st : WtState) : WtState :=
  { st with
    w := fun m => if m < p.nhid * p.n_inputs then
           trialWt env p irand (m / p.n_inputs) (m % p.n_inputs) else st.w m,
    hid_bias := fun ihid => if ihid < p.nhid then
           trialHidBias env p dm irand ihid else st.hid_bias ihid,
    in_bias := fun ivis => if ivis < p.n_inputs then
           trialInBias env p dm irand ivis else st.in_bias ivis }

/-- The per-trial reconstruction pass (lines 212-246): for each batch the
engine fetch/propagate calls are status-checked (a failure aborts the whole
function with `-1.0`), but the `cuda_recon_error` status at line 239 is
stored into `ret_val` and never tested; `err_vec` is then accumulated into
the trial error (lines 241-242).  Returns `none` on abort, otherwise the
trial error and final `err_vec`. -/
def wtBatchLoop (env : WtEnv) (p : WtParams) (irand : ℕ) :
    ℕ → ℕ → ℕ → ℚ → (ℕ → ℚ) → Option (ℚ × (ℕ → ℚ))
  | 0, _, _, error, ev => some (error, ev)
  | fuel+1, b, n_done, error, _ev =>
    let n_in_batch := (p.nc - n_done) / (p.n_batches - b)
    if env.fetchOk irand b = false then none
    else if env.visHidOk irand b = false then none
    else if env.hidVisOk irand b = false then none
    else
      let _ret_val := env.reconRet irand b
      let ev' := fun iv => env.errVec irand b iv
      let error' := error + ∑ iv ∈ Finset.range p.n_inputs, ev' iv
      wtBatchLoop env p irand fuel (b+1) (n_done + n_in_batch) error' ev'

/-- The main trial loop of lines 165-271: one-time shuffle upload at trial 0
(lines 168-175), trial parameter generation, `cuda_params_to_device`
status check (lines 201-206), the reconstruction pass, the strict-improvement
snapshot update (lines 251-260), and the post-trial escape check that breaks
out early (lines 262-269).  `none` means the function aborted with `-1.0`. -/
def wtTrialLoop (env : WtEnv) (p : WtParams) (dm : ℕ → ℚ) :
    ℕ → ℕ → WtState → Option WtState
  | 0, _, st => some st
  | fuel+1, irand, st =>
    if irand == 0 && !env.shuffleOk then none
    else
      let st1 := genTrialParams env p dm irand st
      if env.paramsOk irand = false then none
      else
        match wtBatchLoop env p irand p.n_batches 0 0 0 st1.err_vec with
        | none => none
        | some er =>
          let st2 := { st1 with err_vec := er.2 }
          let st3 := if er.1 < st2.best_err then
              { st2 with
                best_err := er.1,
                w_best := fun m => if m < p.nhid * p.n_inputs then st2.w m else st2.w_best m,
                in_bias_best := fun i => if i < p.n_inputs then st2.in_bias i
                  else st2.in_bias_best i,
                hid_bias_best := fun h => if h < p.nhid then st2.hid_bias h
                  else st2.hid_bias_best h }
            else st2
          if env.esc irand then some st3
          else wtTrialLoop env p dm fuel (irand+1) st3

/-- Buffer state on entry to the trial loop: `best_err = 1e40` (line 163),
all caller-provided buffers at their initial-garbage contents. -/
def wtInitState (env : WtEnv) : WtState where
  best_err := 1e40
  w := env.w0
  in_bias := env.inBias0
  hid_bias := env.hidBias0
  w_best := env.wBest0
  in_bias_best := env.inBiasBest0
  hid_bias_best := env.hidBiasBest0
  err_vec := env.errVec0

/-- Final copy of the best-trial snapshot into the live buffers
(lines 279-286). -/
def wtFinalCopy (p : WtParams) (st : WtState) : WtState :=
  { st with
    w := fun m => if m < p.nhid * p.n_inputs then st.w_best m else st.w m,
    hid_bias := fun h => if h < p.nhid then st.hid_bias_best h else st.hid_bias h,
    in_bias := fun i => if i < p.n_inputs then st.in_bias_best i else st.in_bias i }

/-- A full `rbm_cuda_wt_init` run: data means (lines 87-102), the
`rbm_cuda_init` status discrimination (lines 117-140), the trial loop, and
the final snapshot copy.  `none` means an abort path returning `-1.0`. -/
def wtRun (env : WtEnv) (p : WtParams) (data : ℕ → ℚ) : Option WtState :=
  let dm : ℕ → ℚ := fun ivis => data_mean data p.nc p.ncols ivis
  match env.initStatus with
  | CudaInitStatus.ok =>
    match wtTrialLoop env p dm p.n_rand 0 (wtInitState env) with
    | none => none
    | some st => some (wtFinalCopy p st)
  | _ => none

/-- The function `rbm_cuda_wt_init` (lines 44-291): returns
`best_err / (nc * n_inputs)` (line 290), or the sentinel `-1.0` on any
status-checked failure path. -/
def rbm_cuda_wt_init (env : WtEnv) (p : WtParams) (data : ℕ → ℚ) : ℚ :=
  match wtRun env p data with
  | none => -1
  | some st => st.best_err / ((p.nc : ℚ) * (p.n_inputs : ℚ))

/-- The reconstruction error trial `irand` accumulates across its batches
when no engine call aborts. -/
def trialErrSum (env : WtEnv) (p : WtParams) (irand : ℕ) : ℚ :=
  ∑ b ∈ Finset.range p.n_batches, ∑ iv ∈ Finset.range p.n_inputs, env.errVec irand b iv

/-- All status-checked engine primitives of the initializer succeed.
(The unchecked `cuda_recon_error` status is deliberately not constrained.) -/
def WtNoFail (env : WtEnv) : Prop :=
  env.initStatus = CudaInitStatus.ok ∧ env.shuffleOk = true ∧
  (∀ i, env.paramsOk i = true) ∧ (∀ i b, env.fetchOk i b = true) ∧
  (∀ i b, env.visHidOk i b = true) ∧ (∀ i b, env.hidVisOk i b = true)

/-- No escape/cancellation signal arrives during the initializer run. -/
def WtNoEscape (env : WtEnv) : Prop := ∀ i, env.esc i = false

/-- The final buffer state of a run, read out of the `Option` (under
`WtNoFail` the run always succeeds, making the default irrelevant). -/
def wtRunState (env : WtEnv) (p : WtParams) (data : ℕ → ℚ) : WtState :=
  (wtRun env p data).getD (wtInitState env)

/-- The strict-improvement fold of lines 251-252 on `(best error, index of
the best trial)` pairs, processing trials `start, start+1, ...`. -/
def bestFoldP (env : WtEnv) (p : WtParams) : ℕ → ℕ → ℚ × ℕ → ℚ × ℕ
  | 0, _, acc => acc
  | fuel+1, start, acc =>
      bestFoldP env p fuel (start+1)
        (if trialErrSum env p start < acc.1 then (trialErrSum env p start, start) else acc)

/-- Best (error, trial index) pair after the first `n` trials, starting from
the `1e40` floor of line 163; the index is the first trial attaining the
minimum, since the line-251 comparison is strict. -/
def bestPair (env : WtEnv) (p : WtParams) (n : ℕ) : ℚ × ℕ :=
  bestFoldP env p n 0 (1e40, 0)

/-- The best-trial snapshot buffers hold exactly trial `j`'s generated
parameters, and `best_err` holds trial `j`'s error. -/
def SnapAt (env : WtEnv) (p : WtParams) (dm : ℕ → ℚ) (st : WtState) (j : ℕ) : Prop :=
  st.best_err = trialErrSum env p j ∧
  (∀ m, m < p.nhid * p.n_inputs →
    st.w_best m = trialWt env p j (m / p.n_inputs) (m % p.n_inputs)) ∧
  (∀ h, h < p.nhid → st.hid_bias_best h = trialHidBias env p dm j h) ∧
  (∀ i, i < p.n_inputs → st.in_bias_best i = trialInBias env p dm j i)

/-- `b` is a lower bound for every completed trial's error. -/
def IsMinOver (env : WtEnv) (p : WtParams) (b : ℚ) (n : ℕ) : Prop :=
  ∀ i, i < n → b ≤ trialErrSum env p i

/-- Trial `j` strictly beats every earlier trial — i.e. the snapshot was
overwritten at `j` by a strict improvement and never afterwards. -/
def StrictlyBeatsEarlier (env : WtEnv) (p : WtParams) (j : ℕ) : Prop :=
  ∀ i, i < j → trialErrSum env p j < trialErrSum env p i

/-- Loop invariant of the trial loop after processing trials `[0, start)`:
`best_err` is the folded minimum, and the snapshot buffers are either still
untouched garbage (no trial improved on `1e40` yet) or hold the parameters
of the first minimum-attaining trial. -/
def WtInv (env : WtEnv) (p : WtParams) (dm : ℕ → ℚ) (start : ℕ) (st : WtState) : Prop :=
  st.best_err = (bestPair env p start).1 ∧
  ((st.w_best = env.wBest0 ∧ st.in_bias_best = env.inBiasBest0 ∧
    st.hid_bias_best = env.hidBiasBest0 ∧ (bestPair env p start).1 = 1e40) ∨
   SnapAt env p dm st (bestPair env p start).2)

/-! ## Concrete oracles for exercising the embedding on closed runs -/

/-- A concrete engine oracle for closed `rbm_cuda` runs: epoch 0 reports
per-input error 3, later epochs 100; every gradient report is benign. -/
def env0 : RbmEnv where
  urand := fun _ => 0
  sqrtF := fun _ => 1
  errVec := fun e _ _ => if e = 0 then 3 else 100
  maxIncW := fun _ _ => 1
  maxWeight := fun _ => 1
  lenDotLen := fun _ _ => 1
  lenDotDot := fun _ _ => 0
  escMid := fun _ _ => false
  escEnd := fun _ => false
  errVec0 := fun _ => 0
  lenPrev0 := 0
  smoothedThis0 := 0
  smoothedDot0 := 0
  smoothedRat0 := 0
  bestCrit0 := 0
  bestErr0 := 0
  retErr0 := 0

/-- Concrete `rbm_cuda` arguments for closed runs: one case, one input, one
hidden unit, one batch, two epochs, chain fixed at length 1. -/
def p0 : RbmParams where
  nc := 1
  ncols := 1
  n_inputs := 1
  nhid := 1
  n_chain_start := 1
  n_chain_end := 1
  n_chain_rate := 0
  mean_field := false
  greedy_mean_field := false
  n_batches := 1
  max_epochs := 2
  max_no_imp := 5
  convergence_crit := -1
  learning_rate := 0.5
  start_momentum := 0
  end_momentum := 0
  weight_pen := 0
  sparsity_penalty := 0
  sparsity_target := 0

/-- Oracle on which the escape key is pressed during epoch 1. -/
def envC1 : RbmEnv := { env0 with escMid := fun e _ => e == 1 }

/-- Arguments with an out-of-range caller-supplied learning rate. -/
def pC3 : RbmParams := { p0 with learning_rate := 2, max_epochs := 1 }

/-- Arguments for a one-epoch run (in-range learning rate). -/
def pC3w : RbmParams := { p0 with max_epochs := 1 }

/-- Arguments on which epoch 0 already satisfies the convergence criterion. -/
def pC4 : RbmParams :=
  { p0 with convergence_crit := 10, max_epochs := 1,
            start_momentum := 0.7, end_momentum := 0.3 }

/-- Oracle reporting a strictly increasing criterion `max_inc/max_weight`
(namely `e + 1` at epoch `e`). -/
def envC5 : RbmEnv := { env0 with maxIncW := fun e _ => (e : ℚ) + 1 }

/-- Arguments for exercising stall termination with `max_no_imp = 0`. -/
def pC5 : RbmParams := { p0 with max_no_imp := 0, max_epochs := 3, convergence_crit := 0.5 }

/-- Arguments with a chain annealing from 1 toward 3 at rate one half. -/
def p6 : RbmParams := { p0 with n_chain_end := 3, n_chain_rate := 0.5 }

/-- Arguments with `greedy_mean_field` set and two cases (so the epoch
shuffle loop runs at least one iteration). -/
def pC10 : RbmParams := { p0 with nc := 2, ncols := 2, greedy_mean_field := true, max_epochs := 1 }

/-- A concrete initializer oracle: every status-checked primitive succeeds,
but every `cuda_recon_error` call reports failure status 1; all reported
`err_vec` entries are 0. -/
def wtEnv0 : WtEnv where
  urand := fun _ => 0
  sqrtF := fun _ => 1
  logF := fun _ => 0
  initStatus := CudaInitStatus.ok
  shuffleOk := true
  paramsOk := fun _ => true
  fetchOk := fun _ _ => true
  visHidOk := fun _ _ => true
  hidVisOk := fun _ _ => true
  reconRet := fun _ _ => 1
  errVec := fun _ _ _ => 0
  esc := fun _ => false
  errVec0 := fun _ => 0
  w0 := fun _ => 0
  inBias0 := fun _ => 0
  hidBias0 := fun _ => 0
  wBest0 := fun _ => 0
  inBiasBest0 := fun _ => 0
  hidBiasBest0 := fun _ => 0

/-- Concrete initializer arguments: one case, one input, one hidden unit,
one trial, one batch. -/
def wtP0 : WtParams where
  nc := 1
  ncols := 1
  n_inputs := 1
  nhid := 1
  n_rand := 1
  n_batches := 1

/-! ## Theorems about the embedded code -/

/-- C9: `randnum` starts at seed 1 (line 339), and each coded advance
(`k = x/IQ; x = IA*(x - k*IQ) - IR*k; if (x < 0) x += IM`) computes exactly
the Park–Miller recurrence `x' = (16807 * x) mod 2147483647` for every state
in `[1, 2147483646]`; hence the state stays in that interval (in particular
never 0), and the draw sequence is a deterministic function of the seed. -/
theorem c9_park_miller_stream (env : RbmEnv) (p : RbmParams) (x : ℤ)
    (h1 : 1 ≤ x) (h2 : x ≤ IM - 1) :
    (initState env p).randnum = 1 ∧
    ranNext x = (IA * x) % IM ∧ 1 ≤ ranNext x ∧ ranNext x ≤ IM - 1 := by
  refine ⟨rfl, ?_⟩
  unfold IM at h2
  unfold ranNext IA IM IQ IR
  dsimp only
  split <;> omega

/-- Witness for C9 at the run's actual starting seed `x = 1`. -/
theorem c9_park_miller_stream_witness :
    (initState env0 p0).randnum = 1 ∧
    ranNext 1 = (IA * 1) % IM ∧ 1 ≤ ranNext 1 ∧ ranNext 1 ≤ IM - 1 :=
  c9_park_miller_stream env0 p0 1 (by norm_num) (by norm_num [IM])

/-- C8: for every dataset and every one of the first `n_inputs` columns, the
data-mean computation shared verbatim by `rbm_cuda_wt_init` (lines 87-102)
and `rbm_cuda` (lines 348-362) emits the arithmetic column mean clamped into
`[1e-8, 1 - 1e-8]`, and never a value outside that interval — including for
all-zero or all-one columns. -/
theorem c8_data_mean_clamped (data : ℕ → ℚ) (nc ncols n_inputs ivis : ℕ)
    (_hvis : ivis < n_inputs) (_hnc : 0 < nc) :
    data_mean data nc ncols ivis =
      max 1e-8 (min (1 - 1e-8) (dataMeanRaw data nc ncols ivis)) ∧
    1e-8 ≤ data_mean data nc ncols ivis ∧
    data_mean data nc ncols ivis ≤ 1 - 1e-8 := by
  have key : data_mean data nc ncols ivis =
      max 1e-8 (min (1 - 1e-8) (dataMeanRaw data nc ncols ivis)) := by
    unfold data_mean clampMean
    dsimp only
    rcases lt_or_le (dataMeanRaw data nc ncols ivis) 1e-8 with hlo | hlo
    · rw [if_pos hlo, if_neg (by norm_num : ¬((1e-8 : ℚ) > 1 - 1e-8)),
          min_eq_right (le_trans hlo.le (by norm_num)), max_eq_left hlo.le]
    · rw [if_neg (not_lt.mpr hlo)]
      rcases lt_or_le (1 - 1e-8 : ℚ) (dataMeanRaw data nc ncols ivis) with hhi | hhi
      · rw [if_pos hhi, min_eq_left hhi.le, max_eq_right (by norm_num)]
      · rw [if_neg (not_lt.mpr hhi), min_eq_right hhi, max_eq_right hlo]
  refine ⟨key, ?_, ?_⟩
  · rw [key]; exact le_max_left _ _
  · rw [key]
    exact max_le (by norm_num) (min_le_left _ _)

/-- Witness for C8 on an all-zero one-column dataset. -/
theorem c8_data_mean_clamped_witness :
    data_mean (fun _ => 0) 1 1 0 =
      max 1e-8 (min (1 - 1e-8) (dataMeanRaw (fun _ => 0) 1 1 0)) ∧
    1e-8 ≤ data_mean (fun _ => 0) 1 1 0 ∧
    data_mean (fun _ => 0) 1 1 0 ≤ 1 - 1e-8 :=
  c8_data_mean_clamped (fun _ => 0) 1 1 1 0 (by norm_num) (by norm_num)

/-- C6: for `n_chain_rate` strictly between 0 and 1, the `chain_length`
sequence (started at `n_chain_start`, line 432, and updated by line 744 each
epoch) moves strictly monotonically toward `n_chain_end` and never overshoots
it: strictly increasing and bounded above by `n_chain_end` when
`n_chain_start < n_chain_end`, strictly decreasing and bounded below when
`n_chain_start > n_chain_end`. -/
theorem c6_chain_length_monotone (p : RbmParams) (n : ℕ)
    (h0 : 0 < p.n_chain_rate) (h1 : p.n_chain_rate < 1) :
    (((p.n_chain_start : ℚ) < (p.n_chain_end : ℚ)) →
      chainSeq p n < chainSeq p (n+1) ∧ chainSeq p (n+1) < (p.n_chain_end : ℚ)) ∧
    (((p.n_chain_end : ℚ) < (p.n_chain_start : ℚ)) →
      chainSeq p (n+1) < chainSeq p n ∧ (p.n_chain_end : ℚ) < chainSeq p (n+1)) := by
  constructor
  · intro hlt
    have hb : ∀ m, chainSeq p m < (p.n_chain_end : ℚ) := by
      intro m
      induction m with
      | zero => simpa [chainSeq] using hlt
      | succ k ih =>
        show chainUpdate p (chainSeq p k) < (p.n_chain_end : ℚ)
        unfold chainUpdate
        nlinarith [mul_pos (by linarith : (0:ℚ) < 1 - p.n_chain_rate)
          (sub_pos.mpr ih)]
    refine ⟨?_, hb (n+1)⟩
    show chainSeq p n < chainUpdate p (chainSeq p n)
    unfold chainUpdate
    nlinarith [mul_pos h0 (sub_pos.mpr (hb n))]
  · intro hlt
    have hb : ∀ m, (p.n_chain_end : ℚ) < chainSeq p m := by
      intro m
      induction m with
      | zero => simpa [chainSeq] using hlt
      | succ k ih =>
        show (p.n_chain_end : ℚ) < chainUpdate p (chainSeq p k)
        unfold chainUpdate
        nlinarith [mul_pos (by linarith : (0:ℚ) < 1 - p.n_chain_rate)
          (sub_pos.mpr ih)]
    refine ⟨?_, hb (n+1)⟩
    show chainUpdate p (chainSeq p n) < chainSeq p n
    unfold chainUpdate
    nlinarith [mul_pos h0 (sub_pos.mpr (hb n))]

/-- Witness for C6: with `n_chain_start = 1`, `n_chain_end = 3`,
`n_chain_rate = 1/2`, the first step strictly increases and stays below 3. -/
theorem c6_chain_length_monotone_witness :
    chainSeq p6 0 < chainSeq p6 1 ∧ chainSeq p6 1 < (p6.n_chain_end : ℚ) :=
  (c6_chain_length_monotone p6 0 (by norm_num [p6, p0]) (by norm_num [p6, p0])).1
    (by norm_num [p6, p0])

/-- C2 (the code contradicts it): at line 239 the status of
`cuda_recon_error` is assigned to `ret_val` but — unlike every other engine
call of the function, and unlike the same call at line 544 of `rbm_cuda` —
never tested.  On a run during which every `cuda_recon_error` call reports a
non-success status, `rbm_cuda_wt_init` does not abort: it completes and
returns `best_err / (nc * n_inputs)` (here `0`), not the sentinel `-1.0`. -/
theorem c2_recon_error_status_ignored :
    (∀ irand b, wtEnv0.reconRet irand b ≠ 0) ∧
    rbm_cuda_wt_init wtEnv0 wtP0 (fun _ => 0) = 0 ∧ (0 : ℚ) ≠ -1 := by
  refine ⟨by intro i b; norm_num [wtEnv0], ?_, by norm_num⟩
  norm_num [rbm_cuda_wt_init, wtRun, wtTrialLoop, wtBatchLoop, genTrialParams,
    wtInitState, wtFinalCopy, data_mean, dataMeanRaw, clampMean, wtEnv0, wtP0]

/-- The clamp of lines 663-666 lands in `[0.001, 1]` whatever its input. -/
theorem adaptLr_bounds (lr dot : ℚ) : 0.001 ≤ adaptLr lr dot ∧ adaptLr lr dot ≤ 1 := by
  unfold adaptLr
  dsimp only
  split_ifs <;> constructor <;> linarith

/-- `batchStep` preserves the learning-rate invariant: the only write to the
learning rate inside a batch is the clamped adaptation, and the only
boundary values recorded are the incoming rate (first batch of epoch 0) or a
clamped one. -/
theorem lrOk_batchStep (env : RbmEnv) (p : RbmParams) (e b : ℕ) (st : RbmState)
    (h : LrOk st) : LrOk (batchStep env p e b st).1 := by
  obtain ⟨⟨hl, hu⟩, htr⟩ := h
  unfold batchStep
  dsimp only
  split
  · exact ⟨⟨hl, hu⟩, htr⟩
  · split
    · refine ⟨⟨hl, hu⟩, ?_⟩
      intro y hy
      rcases List.mem_append.mp hy with hy | hy
      · exact htr y hy
      · rw [List.mem_singleton.mp hy]
        exact ⟨hl, hu⟩
    · refine ⟨adaptLr_bounds _ _, ?_⟩
      intro y hy
      rcases List.mem_append.mp hy with hy | hy
      · exact htr y hy
      · rw [List.mem_singleton.mp hy]
        exact adaptLr_bounds _ _

/-- The batch loop preserves the learning-rate invariant. -/
theorem lrOk_batchLoop (env : RbmEnv) (p : RbmParams) (e : ℕ) :
    ∀ fuel b istart n_done st, LrOk st →
      LrOk (batchLoop env p e fuel b istart n_done st).1 := by
  intro fuel
  induction fuel with
  | zero => intro b i n st h; exact h
  | succ k ih =>
    intro b i n st h
    unfold batchLoop
    dsimp only
    split
    · exact lrOk_batchStep env p e b st h
    · exact ih _ _ _ _ (lrOk_batchStep env p e b st h)

/-- A single stall ceiling keeps the rate in `[0.001, 1]` when its cap is in
that interval. -/
theorem stallCap_bounds (nni thr : ℕ) (cap lr : ℚ) (hc0 : 0.001 ≤ cap) (_hc1 : cap ≤ 1)
    (h0 : 0.001 ≤ lr) (h1 : lr ≤ 1) :
    0.001 ≤ stallCap nni thr cap lr ∧ stallCap nni thr cap lr ≤ 1 := by
  unfold stallCap
  split_ifs <;> exact ⟨by linarith, by linarith⟩

/-- The epoch tail of lines 743-768 preserves the learning-rate invariant:
the stall ceilings only ever write 0.03/0.02/0.01/0.005/0.002. -/
theorem lrOk_epochFinish (p : RbmParams) (e : ℕ) (mw : ℚ) (st : RbmState)
    (h : LrOk st) : LrOk (epochFinish p e mw st) := by
  obtain ⟨⟨hl, hu⟩, htr⟩ := h
  unfold epochFinish
  dsimp only
  have s1 := stallCap_bounds st.n_no_improvement 50 0.03 st.learning_rate
    (by norm_num) (by norm_num) hl hu
  have s2 := stallCap_bounds st.n_no_improvement 100 0.02 _
    (by norm_num) (by norm_num) s1.1 s1.2
  have s3 := stallCap_bounds st.n_no_improvement 150 0.01 _
    (by norm_num) (by norm_num) s2.1 s2.2
  have s4 := stallCap_bounds st.n_no_improvement 200 0.005 _
    (by norm_num) (by norm_num) s3.1 s3.2
  have s5 := stallCap_bounds st.n_no_improvement 250 0.002 _
    (by norm_num) (by norm_num) s4.1 s4.2
  exact ⟨s5, htr⟩

/-- One full epoch body preserves the learning-rate invariant, whichever way
it exits. -/
theorem lrOk_epochStep (env : RbmEnv) (p : RbmParams) (e : ℕ) (st : RbmState)
    (h : LrOk st) : LrOk (epochStep env p e st).state := by
  have hbp : LrOk (epochBatchPhase env p e st).1 := by
    unfold epochBatchPhase
    dsimp only
    exact lrOk_batchLoop env p e _ _ _ _ _ h
  unfold epochStep
  dsimp only
  split
  · exact hbp
  · split
    · exact hbp
    · split
      · exact lrOk_epochFinish _ _ _ _ hbp
      · split
        · exact hbp
        · exact lrOk_epochFinish _ _ _ _ hbp

/-- The whole training loop preserves the learning-rate invariant. -/
theorem lrOk_epochLoop (env : RbmEnv) (p : RbmParams) :
    ∀ fuel e st, LrOk st → LrOk (epochLoop env p fuel e st).state := by
  intro fuel
  induction fuel with
  | zero => intro e st h; exact h
  | succ k ih =>
    intro e st h
    have h2 := lrOk_epochStep env p e st h
    unfold epochLoop
    cases hm : epochStep env p e st with
    | cont st' =>
      rw [hm] at h2
      exact ih _ _ h2
    | stop r st' =>
      rw [hm] at h2
      exact h2

/-- C3 (amended): provided the caller-supplied initial `learning_rate` lies
in `[0.001, 1.0]`, the learning rate lies in `[0.001, 1.0]` at every batch
boundary of the run — including the very first batch of the first epoch,
whose boundary value is the still-unadapted initial rate — for any sequence
of `dot` values, since lines 663-666 clamp after every adaptation and lines
755-768 only impose ceilings not below 0.002. -/
theorem c3_learning_rate_in_range (env : RbmEnv) (p : RbmParams) (x : ℚ)
    (h0 : 0.001 ≤ p.learning_rate) (h1 : p.learning_rate ≤ 1)
    (hx : x ∈ (rbmRun env p).state.lrTrace) :
    0.001 ≤ x ∧ x ≤ 1 := by
  have hok : LrOk (rbmRun env p).state := by
    unfold rbmRun
    refine lrOk_epochLoop env p _ _ _ ⟨⟨h0, h1⟩, ?_⟩
    intro y hy
    simp [initState] at hy
  exact hok.2 x hx

/-- Witness for C3 (amended) on a concrete one-epoch run started at rate 0.5:
the sole recorded batch-boundary value is 0.5 and it is in range. -/
theorem c3_learning_rate_in_range_witness : 0.001 ≤ (0.5 : ℚ) ∧ (0.5 : ℚ) ≤ 1 :=
  c3_learning_rate_in_range env0 pC3w 0.5 (by norm_num [pC3w, p0]) (by norm_num [pC3w, p0])
    (by norm_num [rbmRun, epochLoop, epochStep, epochBatchPhase, epochFinish, stallCap, shufflePhase,
      fisherYates, batchLoop, batchStep, chainLoop, chainUpdate, adaptLr, initState,
      ranNext, ranQuot, truncI, IA, IM, IQ, IR, env0, p0, pC3w])

/-- C3 (as stated, false): with caller-supplied `learning_rate = 2`, the very
first batch boundary of the first epoch records the out-of-range value 2 —
no adaptation or clamp has run yet at that boundary. -/
theorem c3_cex :
    (rbmRun env0 pC3).state.lrTrace = [2] ∧ ¬((2 : ℚ) ≤ 1) := by
  constructor
  · norm_num [rbmRun, epochLoop, epochStep, epochBatchPhase, epochFinish, stallCap, shufflePhase,
      fisherYates, batchLoop, batchStep, chainLoop, chainUpdate, adaptLr, initState,
      ranNext, ranQuot, truncI, IA, IM, IQ, IR, env0, p0, pC3]
  · norm_num

/-- C4 (as stated, false at this input): on `pC4` epoch 0 already meets the
convergence criterion and `break`s at line 722, which skips the line 743-744
annealing: momentum stays at the start value 0.7 (not
`0.99*0.7 + 0.01*0.3 = 0.696`) and `chain_length` stays 1. -/
theorem c4_cex :
    (rbmRun env0 pC4).reason = StopReason.smallGrad ∧
    (rbmRun env0 pC4).state.momentum = 0.7 ∧
    (rbmRun env0 pC4).state.chain_length = 1 ∧
    (0.7 : ℚ) ≠ 0.99 * 0.7 + 0.01 * pC4.end_momentum := by
  refine ⟨?_, ?_, ?_, by norm_num [pC4, p0]⟩ <;>
    norm_num [rbmRun, epochLoop, epochStep, epochBatchPhase, epochFinish, stallCap, shufflePhase,
      fisherYates, batchLoop, batchStep, chainLoop, chainUpdate, adaptLr, initState,
      ranNext, ranQuot, truncI, IA, IM, IQ, IR, env0, p0, pC4]

/-- C4 (amended): in every epoch that completes without triggering a
termination `break` (cancellation, small-gradient convergence or stall), the
lines 743-744 run before the epoch ends: momentum becomes
`0.99*momentum + 0.01*end_momentum` and `chain_length` becomes
`(1-n_chain_rate)*chain_length + n_chain_rate*n_chain_end`, where `momentum`
is the post-batch-loop value (the mid-batch damping of line 669 may also
have scaled it) and `chain_length` is untouched by the batch loop.  An epoch
that terminates skips the update (see the counterexample). -/
theorem c4_anneal_on_continuing_epochs (env : RbmEnv) (p : RbmParams) (e : ℕ)
    (st : RbmState) (h : (epochStep env p e st).isCont = true) :
    (epochStep env p e st).state.momentum =
      0.99 * (epochBatchPhase env p e st).1.momentum + 0.01 * p.end_momentum ∧
    (epochStep env p e st).state.chain_length =
      chainUpdate p (epochBatchPhase env p e st).1.chain_length := by
  revert h
  unfold epochStep
  dsimp only
  split
  · intro h; exact absurd h (by simp [EpochOut.isCont])
  · split
    · intro h; exact absurd h (by simp [EpochOut.isCont])
    · split
      · intro _
        exact ⟨rfl, rfl⟩
      · split
        · intro h; exact absurd h (by simp [EpochOut.isCont])
        · intro _
          exact ⟨rfl, rfl⟩

/-- With `greedy_mean_field` set, the lines 480-485 advance is skipped and
`cuda_fetch_vis1` receives whatever the variable `k` currently holds. -/
theorem batchStep_greedy_fetchK (env : RbmEnv) (p : RbmParams) (e b : ℕ) (st : RbmState)
    (hg : p.greedy_mean_field = true) :
    (batchStep env p e b st).1.fetchKs = st.fetchKs ++ [st.k] := by
  unfold batchStep
  simp only [hg, if_true]
  split
  · rfl
  · split <;> rfl

/-- After any batch, `k` holds the stale quotient extracted by the most
recent stream advance: the lines 579-582 hidden-bias advance applied to the
post-chain `randnum`, which also produced the current `randnum`. -/
theorem batchStep_k_stale_quotient (env : RbmEnv) (p : RbmParams) (e b : ℕ) (st : RbmState) :
    (batchStep env p e b st).1.k = some (ranQuot (preHidBiasRand env p e b st)) ∧
    (batchStep env p e b st).1.randnum = ranNext (preHidBiasRand env p e b st) := by
  unfold batchStep preHidBiasRand
  dsimp only
  split
  · exact ⟨rfl, rfl⟩
  · split <;> exact ⟨rfl, rfl⟩

/-- Each batch appends exactly one recorded fetch seed. -/
theorem batchStep_fetchKs_snoc (env : RbmEnv) (p : RbmParams) (e b : ℕ) (st : RbmState) :
    ∃ kk, (batchStep env p e b st).1.fetchKs = st.fetchKs ++ [kk] := by
  unfold batchStep
  dsimp only
  split
  · exact ⟨_, rfl⟩
  · split <;> exact ⟨_, rfl⟩

/-- The batch loop only ever appends to the recorded fetch seeds. -/
theorem batchLoop_fetchKs_ext (env : RbmEnv) (p : RbmParams) (e : ℕ) :
    ∀ fuel b istart n_done st,
      ∃ l, (batchLoop env p e fuel b istart n_done st).1.fetchKs = st.fetchKs ++ l := by
  intro fuel
  induction fuel with
  | zero => intro b i n st; exact ⟨[], (List.append_nil _).symm⟩
  | succ k ih =>
    intro b i n st
    obtain ⟨kk, hk⟩ := batchStep_fetchKs_snoc env p e b st
    unfold batchLoop
    dsimp only
    split
    · exact ⟨[kk], hk⟩
    · obtain ⟨l, hl⟩ := ih (b+1) (i + (p.nc - n) / (p.n_batches - b)) (n + (p.nc - n) / (p.n_batches - b)) (batchStep env p e b st).1
      exact ⟨[kk] ++ l, by rw [hl, hk, List.append_assoc]⟩

/-- Once the Fisher–Yates swap temporary is an assigned value it stays so. -/
theorem fisherYates_some_preserved (u : ℕ → ℚ) :
    ∀ fuel sh v t, ((fisherYates u fuel sh (some v) t).2.1).isSome = true
  | 0, _, _, _ => rfl
  | 1, _, _, _ => rfl
  | n+2, sh, _, t => by
    unfold fisherYates
    dsimp only
    exact fisherYates_some_preserved u (n+1) _ _ _

/-- With at least two entries to shuffle, the shuffle loop body runs and
assigns the swap temporary `k`. -/
theorem fisherYates_some_of_two_le (u : ℕ → ℚ) (fuel : ℕ) (sh : ℤ → ℤ) (kv : Option ℤ)
    (t : ℕ) (h : 2 ≤ fuel) : ((fisherYates u fuel sh kv t).2.1).isSome = true := by
  obtain ⟨n, rfl⟩ : ∃ n, fuel = n + 2 := ⟨fuel - 2, by omega⟩
  unfold fisherYates
  dsimp only
  exact fisherYates_some_preserved u (n+1) _ _ _

/-- The epoch's fetch-seed record begins with whatever the first batch's
fetch passed, namely the state as left by the shuffle phase. -/
theorem epochBatchPhase_fetchKs_ext (env : RbmEnv) (p : RbmParams) (e : ℕ) (st : RbmState)
    (hb : 1 ≤ p.n_batches) :
    ∃ l, (epochBatchPhase env p e st).1.fetchKs =
      (batchStep env p e 0
        { shufflePhase env p st with error := 0, max_inc := 0 }).1.fetchKs ++ l := by
  unfold epochBatchPhase
  dsimp only
  obtain ⟨n, hn⟩ : ∃ n, p.n_batches = n + 1 := ⟨p.n_batches - 1, by omega⟩
  rw [hn]
  unfold batchLoop
  dsimp only
  split
  · exact ⟨[], (List.append_nil _).symm⟩
  · exact batchLoop_fetchKs_ext env p e n 1 _ _ _

/-- The first fetch of an epoch passes the value left in `k` by that epoch's
shuffle phase. -/
theorem epoch_first_fetch (env : RbmEnv) (p : RbmParams) (e : ℕ) (st : RbmState)
    (hg : p.greedy_mean_field = true) (hb : 1 ≤ p.n_batches) :
    ((epochBatchPhase env p e st).1.fetchKs.drop st.fetchKs.length).head? =
      some ((shufflePhase env p st).k) := by
  obtain ⟨l, hl⟩ := epochBatchPhase_fetchKs_ext env p e st hb
  rw [hl, batchStep_greedy_fetchK env p e 0 _ hg]
  show (((st.fetchKs ++ [(shufflePhase env p st).k]) ++ l).drop st.fetchKs.length).head? = _
  rw [List.append_assoc, List.drop_left]
  rfl

/-- C10 (amended): with `greedy_mean_field` set, the per-batch stream advance
before the fetch (lines 480-485) is skipped yet `k` is still passed to
`cuda_fetch_vis1`; the value passed is never a fresh draw: each epoch's first
fetch receives the leftover swap temporary of that epoch's Fisher–Yates
shuffle (an assigned value whenever `nc ≥ 2`; indeterminate only for
`nc ≤ 1`), and every batch leaves in `k` the stale quotient of the most
recent stream advance (the hidden-bias advance of lines 579-582), which is
what the next batch of the epoch then passes. -/
theorem c10_greedy_stale_fetch_seed (env : RbmEnv) (p : RbmParams) (e b : ℕ) (st : RbmState)
    (hg : p.greedy_mean_field = true) (hb : 1 ≤ p.n_batches) (hnc : 2 ≤ p.nc) :
    (batchStep env p e b st).1.fetchKs = st.fetchKs ++ [st.k] ∧
    (batchStep env p e b st).1.k = some (ranQuot (preHidBiasRand env p e b st)) ∧
    (batchStep env p e b st).1.randnum = ranNext (preHidBiasRand env p e b st) ∧
    ((shufflePhase env p st).k).isSome = true ∧
    ((epochBatchPhase env p e st).1.fetchKs.drop st.fetchKs.length).head? =
      some ((shufflePhase env p st).k) := by
  refine ⟨batchStep_greedy_fetchK env p e b st hg,
    (batchStep_k_stale_quotient env p e b st).1,
    (batchStep_k_stale_quotient env p e b st).2, ?_,
    epoch_first_fetch env p e st hg hb⟩
  unfold shufflePhase
  dsimp only
  exact fisherYates_some_of_two_le env.urand p.nc _ _ _ hnc

/-- Witness for C10 (amended) on the concrete greedy run. -/
theorem c10_greedy_stale_fetch_seed_witness :
    (batchStep env0 pC10 0 0 (initState env0 pC10)).1.fetchKs =
      (initState env0 pC10).fetchKs ++ [(initState env0 pC10).k] ∧
    (batchStep env0 pC10 0 0 (initState env0 pC10)).1.k =
      some (ranQuot (preHidBiasRand env0 pC10 0 0 (initState env0 pC10))) ∧
    (batchStep env0 pC10 0 0 (initState env0 pC10)).1.randnum =
      ranNext (preHidBiasRand env0 pC10 0 0 (initState env0 pC10)) ∧
    ((shufflePhase env0 pC10 (initState env0 pC10)).k).isSome = true ∧
    ((epochBatchPhase env0 pC10 0 (initState env0 pC10)).1.fetchKs.drop
      (initState env0 pC10).fetchKs.length).head? =
      some ((shufflePhase env0 pC10 (initState env0 pC10)).k) :=
  c10_greedy_stale_fetch_seed env0 pC10 0 0 (initState env0 pC10)
    (by norm_num [pC10, p0]) (by norm_num [pC10, p0]) (by norm_num [pC10, p0])

/-- The chain loop preserves `err_vec` after the first iteration. -/
theorem chainLoop_ev_false (env : RbmEnv) (e b : ℕ) :
    ∀ fuel r kv ev, (chainLoop env e b fuel false r kv ev).2.2 = ev
  | 0, _, _, _ => rfl
  | n+1, r, kv, ev => by
    unfold chainLoop
    dsimp only
    exact chainLoop_ev_false env e b n _ _ _

/-- A chain of at least one step overwrites `err_vec` with the batch's
`cuda_recon_error` report (the `ichain == 0` case of lines 542-550). -/
theorem chainLoop_ev_pos (env : RbmEnv) (e b : ℕ) (fuel : ℕ) (r : ℤ) (kv : Option ℤ)
    (ev : ℕ → ℚ) :
    (chainLoop env e b (fuel+1) true r kv ev).2.2 = fun iv => env.errVec e b iv := by
  unfold chainLoop
  dsimp only
  exact chainLoop_ev_false env e b fuel _ _ _

/-- Fields a batch never writes, and the exact new escape flag. -/
theorem batchStep_preserved (env : RbmEnv) (p : RbmParams) (e b : ℕ) (st : RbmState) :
    (batchStep env p e b st).1.chain_length = st.chain_length ∧
    (batchStep env p e b st).1.most_recent_correct_error = st.most_recent_correct_error ∧
    (batchStep env p e b st).1.best_crit = st.best_crit ∧
    (batchStep env p e b st).1.n_no_improvement = st.n_no_improvement ∧
    (batchStep env p e b st).1.escFlag = (st.escFlag || env.escMid e b) := by
  unfold batchStep
  dsimp only
  split
  · exact ⟨rfl, rfl, rfl, rfl, rfl⟩
  · split <;> exact ⟨rfl, rfl, rfl, rfl, rfl⟩

/-- The mid-batch `break` of lines 624-625 fires exactly when the epoch index
is nonzero and the escape flag (as just polled) is set. -/
theorem batchStep_snd_iff (env : RbmEnv) (p : RbmParams) (e b : ℕ) (st : RbmState) :
    (batchStep env p e b st).2 = true ↔
      e ≠ 0 ∧ (st.escFlag || env.escMid e b) = true := by
  unfold batchStep
  dsimp only
  split
  · rename_i h
    exact ⟨fun _ => h, fun _ => rfl⟩
  · rename_i h
    split <;> exact ⟨fun hf => absurd hf (by simp), fun hc => absurd hc h⟩

/-- A batch with a chain of length at least one adds exactly the batch's
reported error sum (lines 610-611). -/
theorem batchStep_error (env : RbmEnv) (p : RbmParams) (e b : ℕ) (st : RbmState)
    (hc : 1 ≤ st.chain_length) :
    (batchStep env p e b st).1.error = st.error + batchErrSum env p e b := by
  obtain ⟨m, hm⟩ : ∃ m, (truncI (st.chain_length + 0.5)).toNat = m + 1 := by
    refine ⟨(truncI (st.chain_length + 0.5)).toNat - 1, ?_⟩
    have h1 : (1 : ℤ) ≤ truncI (st.chain_length + 0.5) := by
      unfold truncI
      rw [if_pos (by linarith)]
      exact Int.le_floor.mpr (by push_cast; linarith)
    omega
  unfold batchStep batchErrSum
  dsimp only
  rw [hm]
  simp only [chainLoop_ev_pos]
  split
  · rfl
  · split <;> rfl

/-- The per-batch maximum-increment update of lines 621-622. -/
theorem batchStep_max_inc (env : RbmEnv) (p : RbmParams) (e b : ℕ) (st : RbmState) :
    (batchStep env p e b st).1.max_inc =
      if env.maxIncW e b > st.max_inc then env.maxIncW e b else st.max_inc := by
  unfold batchStep
  dsimp only
  split
  · rfl
  · split <;> rfl

/-- Fields the whole batch loop never writes. -/
theorem batchLoop_preserved (env : RbmEnv) (p : RbmParams) (e : ℕ) :
    ∀ fuel b istart n_done st,
      (batchLoop env p e fuel b istart n_done st).1.chain_length = st.chain_length ∧
      (batchLoop env p e fuel b istart n_done st).1.most_recent_correct_error =
        st.most_recent_correct_error ∧
      (batchLoop env p e fuel b istart n_done st).1.best_crit = st.best_crit ∧
      (batchLoop env p e fuel b istart n_done st).1.n_no_improvement = st.n_no_improvement := by
  intro fuel
  induction fuel with
  | zero => intro b i n st; exact ⟨rfl, rfl, rfl, rfl⟩
  | succ m ih =>
    intro b i n st
    obtain ⟨h1, h2, h3, h4, _⟩ := batchStep_preserved env p e b st
    unfold batchLoop
    dsimp only
    split
    · exact ⟨h1, h2, h3, h4⟩
    · obtain ⟨g1, g2, g3, g4⟩ := ih (b+1) (i + (p.nc - n) / (p.n_batches - b))
        (n + (p.nc - n) / (p.n_batches - b)) (batchStep env p e b st).1
      exact ⟨g1.trans h1, g2.trans h2, g3.trans h3, g4.trans h4⟩

/-- Under a signal-free epoch the escape flag stays cleared and the batch
loop never breaks. -/
theorem batchLoop_noesc (env : RbmEnv) (p : RbmParams) (e : ℕ)
    (hesc : ∀ b, env.escMid e b = false) :
    ∀ fuel b istart n_done st, st.escFlag = false →
      (batchLoop env p e fuel b istart n_done st).1.escFlag = false ∧
      (batchLoop env p e fuel b istart n_done st).2 = false := by
  intro fuel
  induction fuel with
  | zero => intro b i n st h; exact ⟨h, rfl⟩
  | succ m ih =>
    intro b i n st h
    have hstep : (batchStep env p e b st).1.escFlag = false := by
      rw [(batchStep_preserved env p e b st).2.2.2.2, h, hesc b]
      rfl
    have hsnd : (batchStep env p e b st).2 = false := by
      cases h2 : (batchStep env p e b st).2
      · rfl
      · have := ((batchStep_snd_iff env p e b st).mp h2).2
        rw [h, hesc b] at this
        exact absurd this (by simp)
    unfold batchLoop
    dsimp only
    rw [hsnd]
    simp only [Bool.false_eq_true, if_false]
    exact ih _ _ _ _ hstep

/-- During epoch 0 the mid-batch escape check is short-circuited away, so
the batch loop always processes every batch. -/
theorem batchLoop_epoch0 (env : RbmEnv) (p : RbmParams) :
    ∀ fuel b istart n_done st, (batchLoop env p 0 fuel b istart n_done st).2 = false := by
  intro fuel
  induction fuel with
  | zero => intro b i n st; rfl
  | succ m ih =>
    intro b i n st
    have hsnd : (batchStep env p 0 b st).2 = false := by
      cases h2 : (batchStep env p 0 b st).2
      · rfl
      · exact absurd ((batchStep_snd_iff env p 0 b st).mp h2).1 (by simp)
    unfold batchLoop
    dsimp only
    rw [hsnd]
    simp only [Bool.false_eq_true, if_false]
    exact ih _ _ _ _

/-- If the batch loop broke, the epoch index was nonzero and the escape flag
is set in the resulting state. -/
theorem batchLoop_break_facts (env : RbmEnv) (p : RbmParams) (e : ℕ) :
    ∀ fuel b istart n_done st, (batchLoop env p e fuel b istart n_done st).2 = true →
      e ≠ 0 ∧ (batchLoop env p e fuel b istart n_done st).1.escFlag = true := by
  intro fuel
  induction fuel with
  | zero => intro b i n st h; simp [batchLoop] at h
  | succ m ih =>
    intro b i n st h
    unfold batchLoop at h ⊢
    dsimp only at h ⊢
    by_cases hsnd : (batchStep env p e b st).2 = true
    · obtain ⟨he, hesc⟩ := (batchStep_snd_iff env p e b st).mp hsnd
      rw [hsnd] at h ⊢
      simp only [if_true]
      refine ⟨he, ?_⟩
      rw [(batchStep_preserved env p e b st).2.2.2.2]
      exact hesc
    · rw [Bool.not_eq_true] at hsnd
      rw [hsnd] at h ⊢
      simp only [Bool.false_eq_true, if_false] at h ⊢
      exact ih _ _ _ _ h

/-- A batch loop that never broke accumulated every batch's reported error
(chain length stays fixed across the epoch, so every batch refreshed
`err_vec`). -/
theorem batchLoop_error (env : RbmEnv) (p : RbmParams) (e : ℕ) :
    ∀ fuel b istart n_done st, 1 ≤ st.chain_length →
      (batchLoop env p e fuel b istart n_done st).2 = false →
      (batchLoop env p e fuel b istart n_done st).1.error =
        st.error + ∑ k ∈ Finset.range fuel, batchErrSum env p e (b + k) := by
  intro fuel
  induction fuel with
  | zero => intro b i n st hc h2; simp [batchLoop]
  | succ m ih =>
    intro b i n st hc h2
    unfold batchLoop at h2 ⊢
    dsimp only at h2 ⊢
    by_cases hsnd : (batchStep env p e b st).2 = true
    · rw [hsnd] at h2
      simp at h2
    · rw [Bool.not_eq_true] at hsnd
      rw [hsnd] at h2 ⊢
      simp only [Bool.false_eq_true, if_false] at h2 ⊢
      have hch : 1 ≤ (batchStep env p e b st).1.chain_length := by
        rw [(batchStep_preserved env p e b st).1]
        exact hc
      rw [ih _ _ _ _ hch h2, batchStep_error env p e b st hc]
      have hix : ∑ k ∈ Finset.range m, batchErrSum env p e (b + 1 + k) =
          ∑ k ∈ Finset.range m, batchErrSum env p e (b + (k + 1)) := by
        refine Finset.sum_congr rfl fun i _ => ?_
        congr 1
        omega
      rw [hix, Finset.sum_range_succ']
      simp only [Nat.add_zero]
      ring

/-- A batch loop that never broke computed the epoch maximum increment as the
fold of the per-batch reports. -/
theorem batchLoop_max_inc (env : RbmEnv) (p : RbmParams) (e : ℕ) :
    ∀ fuel b istart n_done st,
      (batchLoop env p e fuel b istart n_done st).2 = false →
      (batchLoop env p e fuel b istart n_done st).1.max_inc =
        (List.range' b fuel).foldl
          (fun a k => if env.maxIncW e k > a then env.maxIncW e k else a) st.max_inc := by
  intro fuel
  induction fuel with
  | zero => intro b i n st h2; rfl
  | succ m ih =>
    intro b i n st h2
    unfold batchLoop at h2 ⊢
    dsimp only at h2 ⊢
    by_cases hsnd : (batchStep env p e b st).2 = true
    · rw [hsnd] at h2
      simp at h2
    · rw [Bool.not_eq_true] at hsnd
      rw [hsnd] at h2 ⊢
      simp only [Bool.false_eq_true, if_false] at h2 ⊢
      rw [ih _ _ _ _ h2, batchStep_max_inc env p e b st, List.range'_succ]
      rfl

/-- `epochBatchPhase` preserves the fields the batch loop never writes. -/
theorem epochBatchPhase_preserved (env : RbmEnv) (p : RbmParams) (e : ℕ) (st : RbmState) :
    (epochBatchPhase env p e st).1.chain_length = st.chain_length ∧
    (epochBatchPhase env p e st).1.most_recent_correct_error =
      st.most_recent_correct_error ∧
    (epochBatchPhase env p e st).1.best_crit = st.best_crit ∧
    (epochBatchPhase env p e st).1.n_no_improvement = st.n_no_improvement := by
  unfold epochBatchPhase
  dsimp only
  exact batchLoop_preserved env p e _ _ _ _ _

/-- Projections of the epoch tail that are mere pass-throughs. -/
theorem epochFinish_proj (p : RbmParams) (e : ℕ) (mw : ℚ) (st : RbmState) :
    (epochFinish p e mw st).most_recent_correct_error = st.most_recent_correct_error ∧
    (epochFinish p e mw st).chain_length = chainUpdate p st.chain_length ∧
    (epochFinish p e mw st).best_crit = st.best_crit ∧
    (epochFinish p e mw st).n_no_improvement = st.n_no_improvement ∧
    (epochFinish p e mw st).escFlag = st.escFlag := by
  exact ⟨rfl, rfl, rfl, rfl, rfl⟩

/-- An epoch that ends in the `Cancelled` stop had a nonzero index (the
`i_epoch &&` guards of lines 624 and 693) and did not touch
`most_recent_correct_error`, which is only assigned at line 703 after the
cancellation checks. -/
theorem epochStep_cancelled (env : RbmEnv) (p : RbmParams) (e : ℕ) (st st' : RbmState)
    (h : epochStep env p e st = EpochOut.stop StopReason.cancelled st') :
    e ≠ 0 ∧ st'.most_recent_correct_error = st.most_recent_correct_error := by
  revert h
  unfold epochStep
  dsimp only
  split
  · rename_i hcond
    intro h
    injection h with _ h2
    refine ⟨hcond.1, ?_⟩
    rw [← h2]
    exact (epochBatchPhase_preserved env p e st).2.1
  · split
    · intro h
      injection h with h1
      exact absurd h1 (by simp)
    · split
      · intro h
        exact EpochOut.noConfusion h
      · split
        · intro h
          injection h with h1
          exact absurd h1 (by simp)
        · intro h
          exact EpochOut.noConfusion h

/-- An epoch that continues recorded the full normalized epoch error into
`most_recent_correct_error` and annealed the chain length. -/
theorem epochStep_cont_props (env : RbmEnv) (p : RbmParams) (e : ℕ) (st st' : RbmState)
    (hc : 1 ≤ st.chain_length)
    (h : epochStep env p e st = EpochOut.cont st') :
    st'.most_recent_correct_error = epochNormErr env p e ∧
    st'.chain_length = chainUpdate p st.chain_length := by
  have hbp2 : (epochBatchPhase env p e st).2 = false := by
    cases hb : (epochBatchPhase env p e st).2
    · rfl
    · exfalso
      have hfacts : e ≠ 0 ∧ (epochBatchPhase env p e st).1.escFlag = true := by
        unfold epochBatchPhase at hb ⊢
        exact batchLoop_break_facts env p e _ _ _ _ _ hb
      revert h
      unfold epochStep
      dsimp only
      rw [if_pos ⟨hfacts.1, by rw [hfacts.2]; rfl⟩]
      intro h
      exact EpochOut.noConfusion h
  have herr : (epochBatchPhase env p e st).1.error = epochErrTotal env p e := by
    unfold epochBatchPhase at hbp2 ⊢
    have hc2 : 1 ≤ ({ shufflePhase env p st with error := 0, max_inc := 0 } : RbmState).chain_length := hc
    rw [batchLoop_error env p e p.n_batches 0 0 0 _ hc2 hbp2]
    unfold epochErrTotal
    simp
  have hch : (epochBatchPhase env p e st).1.chain_length = st.chain_length :=
    (epochBatchPhase_preserved env p e st).1
  revert h
  unfold epochStep
  dsimp only
  split
  · intro h
    exact EpochOut.noConfusion h
  · split
    · intro h
      exact EpochOut.noConfusion h
    · split
      · intro h
        injection h with h1
        rw [← h1, (epochFinish_proj _ _ _ _).1, (epochFinish_proj _ _ _ _).2.1]
        constructor
        · show (epochBatchPhase env p e st).1.error / ((p.nc : ℚ) * (p.n_inputs : ℚ)) =
            epochNormErr env p e
          rw [herr]
          rfl
        · show chainUpdate p (epochBatchPhase env p e st).1.chain_length = _
          rw [hch]
      · split
        · intro h
          exact EpochOut.noConfusion h
        · intro h
          injection h with h1
          rw [← h1, (epochFinish_proj _ _ _ _).1, (epochFinish_proj _ _ _ _).2.1]
          constructor
          · show (epochBatchPhase env p e st).1.error / ((p.nc : ℚ) * (p.n_inputs : ℚ)) =
              epochNormErr env p e
            rw [herr]
            rfl
          · show chainUpdate p (epochBatchPhase env p e st).1.chain_length = _
            rw [hch]

/-- One chain anneal keeps the chain length at or above 1 when both
endpoints are at least 1 and the rate is a convex weight. -/
theorem chainUpdate_ge_one (p : RbmParams) (c : ℚ) (hc : 1 ≤ c)
    (hce : 1 ≤ p.n_chain_end) (hr0 : 0 ≤ p.n_chain_rate) (hr1 : p.n_chain_rate ≤ 1) :
    1 ≤ chainUpdate p c := by
  unfold chainUpdate
  have hce' : (1 : ℚ) ≤ (p.n_chain_end : ℚ) := by exact_mod_cast hce
  nlinarith [mul_nonneg (by linarith : (0:ℚ) ≤ 1 - p.n_chain_rate) (by linarith : (0:ℚ) ≤ c - 1),
    mul_nonneg hr0 (by linarith : (0:ℚ) ≤ (p.n_chain_end : ℚ) - 1)]

/-- A training loop that ends `Cancelled` stopped at a nonzero epoch and its
final state still carries the previous epoch's normalized error. -/
theorem epochLoop_cancelled (env : RbmEnv) (p : RbmParams)
    (hce : 1 ≤ p.n_chain_end) (hr0 : 0 ≤ p.n_chain_rate) (hr1 : p.n_chain_rate ≤ 1) :
    ∀ fuel e st, 1 ≤ st.chain_length →
      (1 ≤ e → st.most_recent_correct_error = epochNormErr env p (e - 1)) →
      (epochLoop env p fuel e st).reason = StopReason.cancelled →
      1 ≤ (epochLoop env p fuel e st).stopEpoch ∧
      (epochLoop env p fuel e st).state.most_recent_correct_error =
        epochNormErr env p ((epochLoop env p fuel e st).stopEpoch - 1) := by
  intro fuel
  induction fuel with
  | zero =>
    intro e st _ _ hr
    simp [epochLoop] at hr
  | succ m ih =>
    intro e st hc hmr hr
    unfold epochLoop at hr ⊢
    cases hstep : epochStep env p e st with
    | cont st' =>
      rw [hstep] at hr
      dsimp only at hr ⊢
      have hprops := epochStep_cont_props env p e st st' hc hstep
      refine ih (e+1) st' ?_ ?_ hr
      · rw [hprops.2]
        exact chainUpdate_ge_one p _ hc hce hr0 hr1
      · intro _
        rw [hprops.1]
        norm_num
    | stop r st' =>
      rw [hstep] at hr
      dsimp only at hr ⊢
      subst hr
      obtain ⟨he, hmr'⟩ := epochStep_cancelled env p e st st' hstep
      have h1e : 1 ≤ e := by omega
      refine ⟨h1e, ?_⟩
      rw [hmr']
      exact hmr h1e

/-- C1: on any run that ends `Cancelled`, the cancellation was observed
outside epoch 0 (the stop epoch is at least 1), and `rbm_cuda` returns the
normalized reconstruction error of the most recently fully completed epoch —
the partial epoch's undercounted sum is never returned; moreover the epoch-0
batch loop never breaks, i.e. cancellation during epoch 0 is ignored and
training continues.  (The chain-parameter hypotheses keep the Markov chain
at one step or more, so every batch refreshes `err_vec`.) -/
theorem c1_cancel_returns_last_full_epoch (env : RbmEnv) (p : RbmParams) (data : ℕ → ℚ)
    (st : RbmState) (e : ℕ)
    (hcs : 1 ≤ p.n_chain_start) (hce : 1 ≤ p.n_chain_end)
    (hr0 : 0 ≤ p.n_chain_rate) (hr1 : p.n_chain_rate ≤ 1)
    (hreason : (rbmRun env p).reason = StopReason.cancelled)
    (hstop : (rbmRun env p).stopEpoch = e) :
    1 ≤ e ∧ rbm_cuda env p data = epochNormErr env p (e - 1) ∧
    (epochBatchPhase env p 0 st).2 = false := by
  have hchain : 1 ≤ (initState env p).chain_length := by
    show (1 : ℚ) ≤ ((p.n_chain_start : ℤ) : ℚ)
    exact_mod_cast hcs
  have hmain := epochLoop_cancelled env p hce hr0 hr1 p.max_epochs 0 (initState env p)
    hchain (fun h => absurd h (by omega)) hreason
  refine ⟨?_, ?_, ?_⟩
  · rw [← hstop]
    exact hmain.1
  · unfold rbm_cuda
    rw [← hstop]
    exact hmain.2
  · unfold epochBatchPhase
    dsimp only
    exact batchLoop_epoch0 env p _ _ _ _ _

/-- Witness for C1 on a concrete run cancelled during epoch 1: the returned
value is epoch 0's normalized error. -/
theorem c1_cancel_witness :
    1 ≤ 1 ∧ rbm_cuda envC1 p0 (fun _ => 0) = epochNormErr envC1 p0 (1 - 1) ∧
    (epochBatchPhase envC1 p0 0 (initState envC1 p0)).2 = false := by
  have hrun : (rbmRun envC1 p0).reason = StopReason.cancelled ∧
      (rbmRun envC1 p0).stopEpoch = 1 := by
    constructor <;>
      norm_num [rbmRun, epochLoop, epochStep, epochBatchPhase, epochFinish, stallCap,
        shufflePhase, fisherYates, batchLoop, batchStep, chainLoop, chainUpdate, adaptLr,
        initState, ranNext, ranQuot, truncI, IA, IM, IQ, IR, env0, envC1, p0]
  exact c1_cancel_returns_last_full_epoch envC1 p0 (fun _ => 0) (initState envC1 p0) 1
    (by norm_num [p0]) (by norm_num [p0]) (by norm_num [p0]) (by norm_num [p0])
    hrun.1 hrun.2

/-- Classification of a signal-free epoch that does not meet the convergence
criterion (lines 731-740): either the criterion improved on `best_crit` and
the epoch continues with the stall counter reset, or it failed to improve
and the epoch continues with the counter incremented — unless the
incremented counter exceeds `max_no_imp`, in which case it stops `stalled`. -/
theorem epochStep_noesc_cases (env : RbmEnv) (p : RbmParams) (e : ℕ) (st : RbmState)
    (hesc1 : ∀ b, env.escMid e b = false) (hesc2 : env.escEnd e = false)
    (hflag : st.escFlag = false)
    (hncrit : ¬ epochCrit env p e < p.convergence_crit) :
    (e = 0 ∨ epochCrit env p e < st.best_crit →
      ∃ st', epochStep env p e st = EpochOut.cont st' ∧
        st'.best_crit = epochCrit env p e ∧ st'.n_no_improvement = 0 ∧
        st'.escFlag = false) ∧
    (¬(e = 0 ∨ epochCrit env p e < st.best_crit) →
      (st.n_no_improvement + 1 > p.max_no_imp →
        ∃ st', epochStep env p e st = EpochOut.stop StopReason.stalled st') ∧
      (¬ st.n_no_improvement + 1 > p.max_no_imp →
        ∃ st', epochStep env p e st = EpochOut.cont st' ∧
          st'.best_crit = st.best_crit ∧
          st'.n_no_improvement = st.n_no_improvement + 1 ∧ st'.escFlag = false)) := by
  have hbp : (epochBatchPhase env p e st).1.escFlag = false ∧
      (epochBatchPhase env p e st).2 = false := by
    unfold epochBatchPhase
    dsimp only
    exact batchLoop_noesc env p e hesc1 p.n_batches 0 0 0 _ hflag
  have hmi : (epochBatchPhase env p e st).1.max_inc = epochMaxInc env p e := by
    unfold epochBatchPhase at hbp ⊢
    rw [batchLoop_max_inc env p e p.n_batches 0 0 0 _ hbp.2]
    unfold epochMaxInc
    rw [List.range_eq_range']
  have hbc : (epochBatchPhase env p e st).1.best_crit = st.best_crit :=
    (epochBatchPhase_preserved env p e st).2.2.1
  have hni : (epochBatchPhase env p e st).1.n_no_improvement = st.n_no_improvement :=
    (epochBatchPhase_preserved env p e st).2.2.2
  have hnotcancel : ¬(e ≠ 0 ∧
      ((epochBatchPhase env p e st).1.escFlag || env.escEnd e) = true) := by
    intro hcc
    rw [hbp.1, hesc2] at hcc
    exact absurd hcc.2 (by simp)
  constructor
  · intro him
    unfold epochStep
    dsimp only
    rw [if_neg hnotcancel,
      if_neg (show ¬(epochBatchPhase env p e st).1.max_inc / env.maxWeight e <
        p.convergence_crit by rw [hmi]; exact hncrit),
      if_pos (show e = 0 ∨ (epochBatchPhase env p e st).1.max_inc / env.maxWeight e <
        (epochBatchPhase env p e st).1.best_crit by rw [hmi, hbc]; exact him)]
    refine ⟨_, rfl, ?_, ?_, ?_⟩
    · rw [(epochFinish_proj _ _ _ _).2.2.1]
      show (epochBatchPhase env p e st).1.max_inc / env.maxWeight e = _
      rw [hmi]
      rfl
    · rw [(epochFinish_proj _ _ _ _).2.2.2.1]
    · rw [(epochFinish_proj _ _ _ _).2.2.2.2]
      show ((epochBatchPhase env p e st).1.escFlag || env.escEnd e) = false
      rw [hbp.1, hesc2]
      rfl
  · intro him
    unfold epochStep
    dsimp only
    rw [if_neg hnotcancel,
      if_neg (show ¬(epochBatchPhase env p e st).1.max_inc / env.maxWeight e <
        p.convergence_crit by rw [hmi]; exact hncrit),
      if_neg (show ¬(e = 0 ∨ (epochBatchPhase env p e st).1.max_inc / env.maxWeight e <
        (epochBatchPhase env p e st).1.best_crit) by rw [hmi, hbc]; exact him)]
    constructor
    · intro hstall
      rw [if_pos (show (epochBatchPhase env p e st).1.n_no_improvement + 1 >
        p.max_no_imp by rw [hni]; exact hstall)]
      exact ⟨_, rfl⟩
    · intro hstall
      rw [if_neg (show ¬(epochBatchPhase env p e st).1.n_no_improvement + 1 >
        p.max_no_imp by rw [hni]; exact hstall)]
      refine ⟨_, rfl, ?_, ?_, ?_⟩
      · rw [(epochFinish_proj _ _ _ _).2.2.1]
        exact hbc
      · rw [(epochFinish_proj _ _ _ _).2.2.2.1]
        show (epochBatchPhase env p e st).1.n_no_improvement + 1 = _
        rw [hni]
      · rw [(epochFinish_proj _ _ _ _).2.2.2.2]
        show ((epochBatchPhase env p e st).1.escFlag || env.escEnd e) = false
        rw [hbp.1, hesc2]
        rfl

/-- The stall-counting tail of the training loop: entered at epoch `e ≥ 1`
with `best_crit` stuck at epoch 0's criterion value and the counter at
`e - 1`, a strictly worsening criterion stops the loop `stalled` exactly at
epoch `max_no_imp + 1`. -/
theorem epochLoop_stall (env : RbmEnv) (p : RbmParams) (hesc : NoEscape env)
    (hsm : ∀ a bb, a < bb → epochCrit env p a < epochCrit env p bb)
    (hnc : ∀ a, ¬ epochCrit env p a < p.convergence_crit) :
    ∀ fuel e st, 1 ≤ e → e ≤ p.max_no_imp + 1 → st.escFlag = false →
      st.best_crit = epochCrit env p 0 → st.n_no_improvement = e - 1 →
      p.max_no_imp + 1 < e + fuel →
      (epochLoop env p fuel e st).reason = StopReason.stalled ∧
      (epochLoop env p fuel e st).stopEpoch = p.max_no_imp + 1 := by
  intro fuel
  induction fuel with
  | zero => intro e st h1 h2 _ _ _ h6; omega
  | succ m ih =>
    intro e st h1 h2 hflag hbc hni h6
    have hcases := epochStep_noesc_cases env p e st (fun b => hesc.1 e b) (hesc.2 e)
      hflag (hnc e)
    have hnotimp : ¬(e = 0 ∨ epochCrit env p e < st.best_crit) := by
      rintro (rfl | hlt)
      · omega
      · rw [hbc] at hlt
        have := hsm 0 e (by omega)
        linarith
    by_cases hstall : st.n_no_improvement + 1 > p.max_no_imp
    · have he : e = p.max_no_imp + 1 := by clear hcases hnotimp; omega
      obtain ⟨st', hst'⟩ := (hcases.2 hnotimp).1 hstall
      unfold epochLoop
      rw [hst']
      exact ⟨rfl, he⟩
    · have hA : 1 ≤ e + 1 := by clear hcases hnotimp; omega
      have hB : e + 1 ≤ p.max_no_imp + 1 := by clear hcases hnotimp; omega
      have hC : p.max_no_imp + 1 < e + 1 + m := by clear hcases hnotimp; omega
      have hD : e - 1 + 1 = e + 1 - 1 := by clear hcases hnotimp; omega
      obtain ⟨st', hst', hbc', hni', hflag'⟩ := (hcases.2 hnotimp).2 hstall
      unfold epochLoop
      rw [hst']
      refine ih (e+1) st' hA hB hflag' ?_ ?_ hC
      · rw [hbc', hbc]
      · rw [hni', hni]
        exact hD

/-- C5: under a criterion sequence that strictly worsens every epoch (so the
epoch-0 value recorded as `best_crit` is never beaten) and never dips below
`convergence_crit`, with no cancellation and enough epochs available, the
stall counter increments every epoch after epoch 0 and the run terminates
`stalled` exactly at epoch `max_no_imp + 1` (zero-indexed) — no earlier and
no later. -/
theorem c5_stall_terminates (env : RbmEnv) (p : RbmParams)
    (hesc : NoEscape env)
    (hmono : ∀ a, epochCrit env p a < epochCrit env p (a+1))
    (hcrit0 : p.convergence_crit ≤ epochCrit env p 0)
    (hep : p.max_no_imp + 1 < p.max_epochs) :
    (rbmRun env p).reason = StopReason.stalled ∧
    (rbmRun env p).stopEpoch = p.max_no_imp + 1 := by
  have hsm : ∀ a bb, a < bb → epochCrit env p a < epochCrit env p bb :=
    fun a bb h => strictMono_nat_of_lt_succ hmono h
  have hnc : ∀ a, ¬ epochCrit env p a < p.convergence_crit := by
    intro a hlt
    rcases Nat.eq_zero_or_pos a with rfl | ha
    · linarith
    · have := hsm 0 a ha
      linarith
  obtain ⟨fuel0, hf⟩ : ∃ f, p.max_epochs = f + 1 := ⟨p.max_epochs - 1, by omega⟩
  have hcases := epochStep_noesc_cases env p 0 (initState env p)
    (fun b => hesc.1 0 b) (hesc.2 0) rfl (hnc 0)
  obtain ⟨st1, hst1, hbc1, hni1, hflag1⟩ := hcases.1 (Or.inl rfl)
  have hloop := epochLoop_stall env p hesc hsm hnc fuel0 1 st1 (by omega) (by omega)
    hflag1 (by rw [hbc1]) (by rw [hni1]) (by omega)
  unfold rbmRun
  rw [hf]
  unfold epochLoop
  rw [hst1]
  exact hloop

/-- Witness for C5: with the criterion reported as `e + 1` at epoch `e`,
`max_no_imp = 0` and three epochs available, the run stalls exactly at
epoch 1. -/
theorem c5_stall_terminates_witness :
    (rbmRun envC5 pC5).reason = StopReason.stalled ∧
    (rbmRun envC5 pC5).stopEpoch = pC5.max_no_imp + 1 := by
  have hcritval : ∀ a : ℕ, epochCrit envC5 pC5 a = (a : ℚ) + 1 := by
    intro a
    have hr1 : List.range 1 = [0] := rfl
    have ha : ((a : ℚ) + 1) > 0 := by positivity
    simp only [epochCrit, epochMaxInc, envC5, env0, pC5, p0, hr1, List.foldl_cons,
      List.foldl_nil]
    rw [if_pos ha]
    norm_num
  refine c5_stall_terminates envC5 pC5 ⟨fun e b => rfl, fun e => rfl⟩ ?_ ?_
    (by norm_num [pC5, p0])
  · intro a
    rw [hcritval a, hcritval (a+1)]
    push_cast
    linarith
  · rw [hcritval 0]
    norm_num [pC5, p0]

/-- C10 (as stated, false): in the concrete greedy run with `nc = 2` the `k`
passed to the very first `cuda_fetch_vis1` of the first epoch is not a
never-assigned value — the Fisher–Yates shuffle at the top of the epoch
already assigned it (here the value 1, the swap temporary of the single
shuffle iteration). -/
theorem c10_cex :
    (rbmRun env0 pC10).state.fetchKs = [some 1] ∧ (some 1 : Option ℤ) ≠ none := by
  refine ⟨?_, by simp⟩
  norm_num [rbmRun, epochLoop, epochStep, epochBatchPhase, epochFinish, stallCap, shufflePhase,
    fisherYates, batchLoop, batchStep, chainLoop, chainUpdate, adaptLr, initState,
    ranNext, ranQuot, truncI, IA, IM, IQ, IR, env0, p0, pC10]

/-- Witness for C4 (amended) at a concrete continuing epoch (epoch 0 of the
`env0`/`p0` run). -/
theorem c4_anneal_witness :
    (epochStep env0 p0 0 (initState env0 p0)).state.momentum =
      0.99 * (epochBatchPhase env0 p0 0 (initState env0 p0)).1.momentum +
        0.01 * p0.end_momentum ∧
    (epochStep env0 p0 0 (initState env0 p0)).state.chain_length =
      chainUpdate p0 (epochBatchPhase env0 p0 0 (initState env0 p0)).1.chain_length :=
  c4_anneal_on_continuing_epochs env0 p0 0 (initState env0 p0)
    (by norm_num [epochStep, epochBatchPhase, epochFinish, stallCap, shufflePhase, fisherYates,
      batchLoop, batchStep, chainLoop, chainUpdate, adaptLr, initState, ranNext, ranQuot,
      truncI, IA, IM, IQ, IR, env0, p0, EpochOut.isCont])

/-- Appending one trial to the strict-improvement fold compares the new
trial's error against the folded best so far. -/
theorem bestFoldP_snoc (env : WtEnv) (p : WtParams) :
    ∀ fuel start acc, bestFoldP env p (fuel+1) start acc =
      (if trialErrSum env p (start+fuel) < (bestFoldP env p fuel start acc).1
       then (trialErrSum env p (start+fuel), start+fuel)
       else bestFoldP env p fuel start acc) := by
  intro fuel
  induction fuel with
  | zero =>
    intro start acc
    simp only [bestFoldP, Nat.add_zero]
  | succ m ih =>
    intro start acc
    have hidx : start + 1 + m = start + (m + 1) := by omega
    have hdef : bestFoldP env p (m+1+1) start acc =
        bestFoldP env p (m+1) (start+1)
          (if trialErrSum env p start < acc.1
           then (trialErrSum env p start, start) else acc) := rfl
    have hdef2 : bestFoldP env p (m+1) start acc =
        bestFoldP env p m (start+1)
          (if trialErrSum env p start < acc.1
           then (trialErrSum env p start, start) else acc) := rfl
    rw [hdef, ih, hidx, hdef2]

/-- One-step unfolding of `bestPair` from the back. -/
theorem bestPair_succ (env : WtEnv) (p : WtParams) (n : ℕ) :
    bestPair env p (n+1) =
      (if trialErrSum env p n < (bestPair env p n).1
       then (trialErrSum env p n, n) else bestPair env p n) := by
  unfold bestPair
  rw [bestFoldP_snoc]
  simp only [Nat.zero_add]

/-- The folded best error never increases as one more trial is processed. -/
theorem bestPair_fst_le_succ (env : WtEnv) (p : WtParams) (n : ℕ) :
    (bestPair env p (n+1)).1 ≤ (bestPair env p n).1 := by
  rw [bestPair_succ]
  by_cases h : trialErrSum env p n < (bestPair env p n).1
  · rw [if_pos h]
    exact le_of_lt h
  · rw [if_neg h]

/-- The folded best error is antitone in the number of trials. -/
theorem bestPair_fst_anti (env : WtEnv) (p : WtParams) (n1 n2 : ℕ) (h : n1 ≤ n2) :
    (bestPair env p n2).1 ≤ (bestPair env p n1).1 := by
  induction n2, h using Nat.le_induction with
  | base => exact le_rfl
  | succ m _ ih => exact le_trans (bestPair_fst_le_succ env p m) ih

/-- The folded best error is a lower bound for every processed trial. -/
theorem bestPair_min (env : WtEnv) (p : WtParams) :
    ∀ n i, i < n → (bestPair env p n).1 ≤ trialErrSum env p i := by
  intro n
  induction n with
  | zero => intro i h; omega
  | succ m ih =>
    intro i h
    rcases Nat.lt_succ_iff_lt_or_eq.mp h with h' | rfl
    · exact le_trans (bestPair_fst_le_succ env p m) (ih i h')
    · rw [bestPair_succ]
      by_cases hc : trialErrSum env p i < (bestPair env p i).1
      · rw [if_pos hc]
      · rw [if_neg hc]
        exact not_lt.mp hc

/-- When some trial beat the `1e40` floor, the folded pair names the first
index attaining the minimum: its error is the fold value and it strictly
beats every earlier trial. -/
theorem bestPair_strict (env : WtEnv) (p : WtParams) :
    ∀ n, (bestPair env p n).1 < 1e40 →
      (bestPair env p n).1 = trialErrSum env p (bestPair env p n).2 ∧
      (bestPair env p n).2 < n ∧ StrictlyBeatsEarlier env p (bestPair env p n).2 := by
  intro n
  induction n with
  | zero =>
    intro h
    exact absurd h (by norm_num [bestPair, bestFoldP])
  | succ m ih =>
    intro h
    rw [bestPair_succ] at h ⊢
    by_cases hc : trialErrSum env p m < (bestPair env p m).1
    · rw [if_pos hc] at h ⊢
      refine ⟨rfl, by show m < m + 1; omega, ?_⟩
      intro i hi
      show trialErrSum env p m < trialErrSum env p i
      exact lt_of_lt_of_le hc (bestPair_min env p m i hi)
    · rw [if_neg hc] at h ⊢
      obtain ⟨h1, h2, h3⟩ := ih h
      exact ⟨h1, by omega, h3⟩

/-- `n_rand` does not occur in the trial errors, so the fold ignores it. -/
theorem bestFoldP_nrand (env : WtEnv) (p : WtParams) (n : ℕ) :
    ∀ fuel start acc, bestFoldP env { p with n_rand := n } fuel start acc =
      bestFoldP env p fuel start acc := by
  intro fuel
  induction fuel with
  | zero => intro start acc; rfl
  | succ m ih =>
    intro start acc
    unfold bestFoldP
    exact ih _ _

/-- `bestPair` is unchanged by replacing `n_rand`. -/
theorem bestPair_nrand (env : WtEnv) (p : WtParams) (n m : ℕ) :
    bestPair env { p with n_rand := n } m = bestPair env p m := by
  unfold bestPair
  exact bestFoldP_nrand env p n m 0 _

/-- Trial generation never writes the snapshot buffers or `best_err`. -/
theorem genTrialParams_proj (env : WtEnv) (p : WtParams) (dm : ℕ → ℚ) (irand : ℕ)
    (st : WtState) :
    (genTrialParams env p dm irand st).best_err = st.best_err ∧
    (genTrialParams env p dm irand st).w_best = st.w_best ∧
    (genTrialParams env p dm irand st).in_bias_best = st.in_bias_best ∧
    (genTrialParams env p dm irand st).hid_bias_best = st.hid_bias_best :=
  ⟨rfl, rfl, rfl, rfl⟩

/-- With every status-checked call succeeding, the reconstruction pass of a
trial completes and accumulates exactly the reported per-batch error sums —
including when the ignored `cuda_recon_error` status is a failure. -/
theorem wtBatchLoop_ok (env : WtEnv) (p : WtParams) (irand : ℕ)
    (hf : ∀ b, env.fetchOk irand b = true) (hv : ∀ b, env.visHidOk irand b = true)
    (hh : ∀ b, env.hidVisOk irand b = true) :
    ∀ fuel b n_done e0 ev, ∃ ev',
      wtBatchLoop env p irand fuel b n_done e0 ev =
        some (e0 + ∑ k ∈ Finset.range fuel,
          ∑ iv ∈ Finset.range p.n_inputs, env.errVec irand (b+k) iv, ev') := by
  intro fuel
  induction fuel with
  | zero =>
    intro b n e0 ev
    exact ⟨ev, by simp [wtBatchLoop]⟩
  | succ m ih =>
    intro b n e0 ev
    unfold wtBatchLoop
    dsimp only
    rw [if_neg (by rw [hf b]; simp), if_neg (by rw [hv b]; simp), if_neg (by rw [hh b]; simp)]
    obtain ⟨ev', hev⟩ := ih (b+1) (n + (p.nc - n) / (p.n_batches - b))
      (e0 + ∑ iv ∈ Finset.range p.n_inputs, env.errVec irand b iv)
      (fun iv => env.errVec irand b iv)
    refine ⟨ev', ?_⟩
    beta_reduce
    rw [hev]
    have hix : ∑ k ∈ Finset.range m,
        (∑ iv ∈ Finset.range p.n_inputs, env.errVec irand (b + 1 + k) iv) =
        ∑ k ∈ Finset.range m,
        (∑ iv ∈ Finset.range p.n_inputs, env.errVec irand (b + (k + 1)) iv) := by
      refine Finset.sum_congr rfl fun i _ => ?_
      have hbi : b + 1 + i = b + (i + 1) := by omega
      rw [hbi]
    have hsum : e0 + (∑ iv ∈ Finset.range p.n_inputs, env.errVec irand b iv) +
        ∑ k ∈ Finset.range m, ∑ iv ∈ Finset.range p.n_inputs, env.errVec irand (b+1+k) iv =
        e0 + ∑ k ∈ Finset.range (m+1),
          ∑ iv ∈ Finset.range p.n_inputs, env.errVec irand (b+k) iv := by
      rw [hix, Finset.sum_range_succ']
      simp only [Nat.add_zero]
      ring
    rw [hsum]

/-- The trial loop under no failures and no escapes: it completes, and the
best-error/snapshot invariant advances across the processed trials. -/
theorem wtTrialLoop_inv (env : WtEnv) (p : WtParams) (dm : ℕ → ℚ)
    (hnf : WtNoFail env) (hne : WtNoEscape env) :
    ∀ fuel start st, WtInv env p dm start st →
      ∃ st', wtTrialLoop env p dm fuel start st = some st' ∧
        WtInv env p dm (start + fuel) st' := by
  obtain ⟨-, hsh, hpar, hfet, hvis, hhid⟩ := hnf
  intro fuel
  induction fuel with
  | zero =>
    intro start st h
    exact ⟨st, rfl, by rw [Nat.add_zero]; exact h⟩
  | succ m ih =>
    intro start st hinv
    have hidx : start + (m + 1) = start + 1 + m := by omega
    rw [hidx]
    unfold wtTrialLoop
    dsimp only
    rw [hsh]
    simp only [Bool.not_true, Bool.and_false, Bool.false_eq_true, if_false]
    rw [if_neg (by rw [hpar start]; simp)]
    obtain ⟨ev', hbl⟩ := wtBatchLoop_ok env p start (hfet start) (hvis start) (hhid start)
      p.n_batches 0 0 0 (genTrialParams env p dm start st).err_vec
    have herr : (0 : ℚ) + ∑ k ∈ Finset.range p.n_batches,
        ∑ iv ∈ Finset.range p.n_inputs, env.errVec start (0 + k) iv =
        trialErrSum env p start := by
      unfold trialErrSum
      simp
    rw [herr] at hbl
    rw [hbl]
    dsimp only
    rw [hne start]
    simp only [Bool.false_eq_true, if_false]
    split
    · rename_i hc
      have hc' : trialErrSum env p start < (bestPair env p start).1 := by
        rw [← hinv.1]
        rw [(genTrialParams_proj env p dm start st).1] at hc
        exact hc
      have hbp1 : bestPair env p (start + 1) = (trialErrSum env p start, start) := by
        rw [bestPair_succ, if_pos hc']
      refine ih (start + 1) _ ⟨?_, Or.inr ⟨?_, ?_, ?_, ?_⟩⟩
      · show trialErrSum env p start = (bestPair env p (start + 1)).1
        rw [hbp1]
      · show trialErrSum env p start = trialErrSum env p (bestPair env p (start + 1)).2
        rw [hbp1]
      · rw [hbp1]
        intro m' hm'
        show (if m' < p.nhid * p.n_inputs then
            (if m' < p.nhid * p.n_inputs then
              trialWt env p start (m' / p.n_inputs) (m' % p.n_inputs) else st.w m')
          else st.w_best m') = trialWt env p start (m' / p.n_inputs) (m' % p.n_inputs)
        rw [if_pos hm', if_pos hm']
      · rw [hbp1]
        intro h' hh'
        show (if h' < p.nhid then
            (if h' < p.nhid then trialHidBias env p dm start h' else st.hid_bias h')
          else st.hid_bias_best h') = trialHidBias env p dm start h'
        rw [if_pos hh', if_pos hh']
      · rw [hbp1]
        intro i' hi'
        show (if i' < p.n_inputs then
            (if i' < p.n_inputs then trialInBias env p dm start i' else st.in_bias i')
          else st.in_bias_best i') = trialInBias env p dm start i'
        rw [if_pos hi', if_pos hi']
    · rename_i hc
      have hc' : ¬ trialErrSum env p start < (bestPair env p start).1 := by
        rw [← hinv.1]
        intro hlt
        exact hc (by rw [(genTrialParams_proj env p dm start st).1]; exact hlt)
      have hbp1 : bestPair env p (start + 1) = bestPair env p start := by
        rw [bestPair_succ, if_neg hc']
      refine ih (start + 1) _ ⟨?_, ?_⟩
      · show (genTrialParams env p dm start st).best_err = (bestPair env p (start + 1)).1
        rw [hbp1, (genTrialParams_proj env p dm start st).1]
        exact hinv.1
      · rcases hinv.2 with ⟨hw, hin, hhid2, h40⟩ | hsnap
        · refine Or.inl ⟨?_, ?_, ?_, ?_⟩
          · show (genTrialParams env p dm start st).w_best = env.wBest0
            rw [(genTrialParams_proj env p dm start st).2.1]
            exact hw
          · show (genTrialParams env p dm start st).in_bias_best = env.inBiasBest0
            rw [(genTrialParams_proj env p dm start st).2.2.1]
            exact hin
          · show (genTrialParams env p dm start st).hid_bias_best = env.hidBiasBest0
            rw [(genTrialParams_proj env p dm start st).2.2.2]
            exact hhid2
          · rw [hbp1]
            exact h40
        · refine Or.inr ?_
          rw [hbp1]
          refine ⟨?_, ?_, ?_, ?_⟩
          · show (genTrialParams env p dm start st).best_err = _
            rw [(genTrialParams_proj env p dm start st).1]
            exact hsnap.1
          · intro m' hm'
            show (genTrialParams env p dm start st).w_best m' = _
            rw [(genTrialParams_proj env p dm start st).2.1]
            exact hsnap.2.1 m' hm'
          · intro h' hh'
            show (genTrialParams env p dm start st).hid_bias_best h' = _
            rw [(genTrialParams_proj env p dm start st).2.2.2]
            exact hsnap.2.2.1 h' hh'
          · intro i' hi'
            show (genTrialParams env p dm start st).in_bias_best i' = _
            rw [(genTrialParams_proj env p dm start st).2.2.1]
            exact hsnap.2.2.2 i' hi'

/-- Under no failures and no escapes the initializer completes; its final
buffers are the snapshot copy of a trial-loop state satisfying the
invariant. -/
theorem wtRun_spec (env : WtEnv) (p : WtParams) (data : ℕ → ℚ)
    (hnf : WtNoFail env) (hne : WtNoEscape env) :
    ∃ st', wtRun env p data = some (wtFinalCopy p st') ∧
      WtInv env p (fun ivis => data_mean data p.nc p.ncols ivis) p.n_rand st' := by
  obtain ⟨st', h1, h2⟩ := wtTrialLoop_inv env p
    (fun ivis => data_mean data p.nc p.ncols ivis) hnf hne p.n_rand 0 (wtInitState env)
    ⟨rfl, Or.inl ⟨rfl, rfl, rfl, rfl⟩⟩
  refine ⟨st', ?_, by rw [Nat.zero_add] at h2; exact h2⟩
  unfold wtRun
  rw [hnf.1]
  dsimp only
  rw [h1]

/-- The value returned by `rbm_cuda_wt_init` on a completed run is the folded
best trial error normalized by `nc * n_inputs` (line 290). -/
theorem wt_init_value (env : WtEnv) (p : WtParams) (data : ℕ → ℚ)
    (hnf : WtNoFail env) (hne : WtNoEscape env) :
    rbm_cuda_wt_init env p data =
      (bestPair env p p.n_rand).1 / ((p.nc : ℚ) * (p.n_inputs : ℚ)) := by
  obtain ⟨st', h1, h2⟩ := wtRun_spec env p data hnf hne
  unfold rbm_cuda_wt_init
  rw [h1]
  show st'.best_err / _ = _
  rw [h2.1]

/-- C7: the initializer's running best error is non-increasing as trials
accumulate — a run with more trials from the same oracle returns an error no
worse than one with fewer — and on a completed run the best-trial snapshot
(`w_best`, `in_bias_best`, `hid_bias_best`) holds exactly the parameters of
the minimum-error completed trial: the retained trial index is below
`n_rand`, its error lower-bounds every completed trial, and it strictly
beats every earlier trial (the snapshot is overwritten only on strict
improvement, so ties keep the earlier trial). -/
theorem c7_wt_init_monotone_and_snapshot (env : WtEnv) (p : WtParams) (data : ℕ → ℚ)
    (n1 n2 : ℕ) (hnf : WtNoFail env) (hne : WtNoEscape env) (h12 : n1 ≤ n2)
    (hnc : 0 < p.nc) (hni : 0 < p.n_inputs)
    (hex : (bestPair env p p.n_rand).1 < 1e40) :
    rbm_cuda_wt_init env { p with n_rand := n2 } data ≤
      rbm_cuda_wt_init env { p with n_rand := n1 } data ∧
    (wtRun env p data).isSome = true ∧
    IsMinOver env p (wtRunState env p data).best_err p.n_rand ∧
    (bestPair env p p.n_rand).2 < p.n_rand ∧
    SnapAt env p (fun ivis => data_mean data p.nc p.ncols ivis)
      (wtRunState env p data) (bestPair env p p.n_rand).2 ∧
    StrictlyBeatsEarlier env p (bestPair env p p.n_rand).2 := by
  obtain ⟨st', h1, h2⟩ := wtRun_spec env p data hnf hne
  have hstate : wtRunState env p data = wtFinalCopy p st' := by
    unfold wtRunState
    rw [h1]
    rfl
  have hbest : (wtRunState env p data).best_err = (bestPair env p p.n_rand).1 := by
    rw [hstate]
    show st'.best_err = _
    exact h2.1
  have hval : ∀ n : ℕ, rbm_cuda_wt_init env { p with n_rand := n } data =
      (bestPair env p n).1 / ((p.nc : ℚ) * (p.n_inputs : ℚ)) := by
    intro n
    rw [wt_init_value env { p with n_rand := n } data hnf hne]
    dsimp only
    rw [bestPair_nrand]
  have hstrict := bestPair_strict env p p.n_rand hex
  refine ⟨?_, ?_, ?_, hstrict.2.1, ?_, hstrict.2.2⟩
  · rw [hval n1, hval n2]
    have hc : (0 : ℚ) < (p.nc : ℚ) * (p.n_inputs : ℚ) := by
      exact_mod_cast Nat.mul_pos hnc hni
    exact (div_le_div_iff_of_pos_right hc).mpr (bestPair_fst_anti env p n1 n2 h12)
  · rw [h1]
    rfl
  · intro i hi
    rw [hbest]
    exact bestPair_min env p p.n_rand i hi
  · rcases h2.2 with ⟨_, _, _, h40⟩ | hsnap
    · rw [h40] at hex
      exact absurd hex (lt_irrefl _)
    · rw [hstate]
      exact hsnap

/-- Witness for C7 on the concrete one-trial oracle (all reported errors 0,
so trial 0 is the retained minimum), comparing `n_rand = 1` and `n_rand = 2`. -/
theorem c7_wt_init_monotone_and_snapshot_witness :
    rbm_cuda_wt_init wtEnv0 { wtP0 with n_rand := 2 } (fun _ => 0) ≤
      rbm_cuda_wt_init wtEnv0 { wtP0 with n_rand := 1 } (fun _ => 0) ∧
    (wtRun wtEnv0 wtP0 (fun _ => 0)).isSome = true ∧
    IsMinOver wtEnv0 wtP0 (wtRunState wtEnv0 wtP0 (fun _ => 0)).best_err wtP0.n_rand ∧
    (bestPair wtEnv0 wtP0 wtP0.n_rand).2 < wtP0.n_rand ∧
    SnapAt wtEnv0 wtP0 (fun ivis => data_mean (fun _ => 0) wtP0.nc wtP0.ncols ivis)
      (wtRunState wtEnv0 wtP0 (fun _ => 0)) (bestPair wtEnv0 wtP0 wtP0.n_rand).2 ∧
    StrictlyBeatsEarlier wtEnv0 wtP0 (bestPair wtEnv0 wtP0 wtP0.n_rand).2 :=
  c7_wt_init_monotone_and_snapshot wtEnv0 wtP0 (fun _ => 0) 1 2
    ⟨rfl, rfl, fun _ => rfl, fun _ _ => rfl, fun _ _ => rfl, fun _ _ => rfl⟩
    (fun _ => rfl) (by norm_num) (by norm_num [wtP0]) (by norm_num [wtP0])
    (by norm_num [bestPair, bestFoldP, trialErrSum, wtEnv0, wtP0])

end RBMCuda
